import Mathlib

/-!
Verification of the LinkedIn job aggregator core against its specification.

The Python source is shallowly embedded: pure functions become Lean
functions, SQLite tables become lists of rows, dictionaries become
association lists from column names to SQL values, and the event-loop
code is modelled by explicit state passing.  Machine floats of the source
are modelled by exact rationals (all arithmetic the claims exercise is
exact at these magnitudes), Python string operations are modelled on
ASCII data (`lower`, `strip`, substring containment), and `\d` / `\s`
of the source regexes are modelled as ASCII digits / ASCII whitespace.
-/

namespace LinkedinMcp

/-! ## Python string primitives -/

/-- Python `str.lower()` (ASCII model). -/
def strLower (s : String) : String := String.mk (s.toList.map Char.toLower)

/-- Python `str.strip()` (whitespace model): drop leading and trailing
whitespace. -/
def pyStrip (s : String) : String :=
  String.mk
    (((s.toList.dropWhile Char.isWhitespace).reverse.dropWhile Char.isWhitespace).reverse)

/-- Python `str.endswith` on strings. -/
def strEndsWith (s suf : String) : Bool := List.isSuffixOf suf.toList s.toList

/-- Python slicing `s[:-n]`: drop the last `n` characters. -/
def strDropRight (s : String) (n : Nat) : String :=
  String.mk (s.toList.take (s.toList.length - n))

/-- Substring test on character lists: Python `needle in haystack`. -/
def listContainsSub : List Char → List Char → Bool
  | _, [] => true
  | [], _ :: _ => false
  | h :: t, p :: ps => (List.isPrefixOf (p :: ps) (h :: t)) || listContainsSub t (p :: ps)

/-- Python substring containment `needle in haystack` for strings. -/
def strContainsSub (haystack needle : String) : Bool :=
  listContainsSub haystack.toList needle.toList

/-! ## `db.normalize_company_name` (db.py lines 20-44) -/

/-- Suffix list of `normalize_company_name` in db.py, in source order. -/
def companySuffixes : List String :=
  [", inc.", " inc.", " inc",
   ", llc", " llc",
   ", ltd.", " ltd.", " ltd",
   ", corp.", " corp.", " corp",
   ", corporation", " corporation",
   " limited",
   ", co.", " co."]

/-- Strip the first matching suffix from the list (the source loop breaks
after the first match). -/
def stripFirstSuffix : List String → String → String
  | [], s => s
  | suf :: rest, s =>
      if strEndsWith s suf then strDropRight s suf.length else stripFirstSuffix rest s

/-- Embedding of `normalize_company_name` (db.py lines 20-44):
lowercase and strip, drop the first matching suffix, strip again. -/
def normalize_company_name (name : String) : String :=
  pyStrip (stripFirstSuffix companySuffixes (strLower (pyStrip name)))

/-- Company-name normalization as the spec sentence describes it:
lowercase, strip the eight listed suffixes, trim whitespace.  This is the
spec-side definition used to compare the claim's wording with the code. -/
def normalizeCompanyNameSpec (name : String) : String :=
  pyStrip (stripFirstSuffix
    [", inc.", " inc", " llc", " ltd", " corp", " corporation", " limited", " co."]
    (strLower (pyStrip name)))

/-! ## `scraper.extract_salary_structured` (scraper.py lines 563-632)

The numeric tokens are the group-1 captures of Python
`re.findall` with pattern `[\$£€¥]?\s*(\d{1,3}(?:,\d{3})*(?:\.\d+)?)\s*[Kk]?`
over the input.  Everything after the mandatory `\d{1,3}` in the pattern is
optional or a star, so the scan is deterministic and needs no backtracking:
each match's capture starts at the next unconsumed digit; greedy `\d{1,3}`,
then `(,ddd)*` groups, then an optional `.digits` fraction; the match then
consumes trailing whitespace and at most one `K`/`k` before the scan
resumes.  The optional leading `[\$£€¥]?\s*` never changes the captured
group nor the scan position reached, so it is not represented. -/

/-- Take up to `n` leading ASCII digits (`\d{1,n}` greedy). -/
def takeDigitsUpTo : Nat → List Char → List Char × List Char
  | 0, l => ([], l)
  | _ + 1, [] => ([], [])
  | n + 1, c :: cs =>
      if c.isDigit then
        let p := takeDigitsUpTo n cs
        (c :: p.1, p.2)
      else ([], c :: cs)

/-- Consume `(?:,\d{3})*` greedily. -/
def takeCommaGroups : List Char → List Char × List Char
  | ',' :: a :: b :: c :: rest =>
      if a.isDigit && b.isDigit && c.isDigit then
        let p := takeCommaGroups rest
        (',' :: a :: b :: c :: p.1, p.2)
      else ([], ',' :: a :: b :: c :: rest)
  | l => ([], l)

/-- Consume `(?:\.\d+)?` greedily. -/
def takeFrac : List Char → List Char × List Char
  | '.' :: c :: rest =>
      if c.isDigit then
        ('.' :: (c :: rest).takeWhile Char.isDigit, (c :: rest).dropWhile Char.isDigit)
      else ([], '.' :: c :: rest)
  | l => ([], l)

/-- Whether a character is `K` or `k`. -/
def isKChar (c : Char) : Bool := c = 'K' || c = 'k'

/-- Consume the trailing `\s*[Kk]?` of a match. -/
def dropKSuffix (l : List Char) : List Char :=
  match l.dropWhile Char.isWhitespace with
  | c :: cs => if isKChar c then cs else c :: cs
  | [] => []

/-- One regex match starting at a digit: the captured token and the
remainder of the input after the whole match. -/
def scanGroup (l : List Char) : List Char × List Char :=
  let p1 := takeDigitsUpTo 3 l
  let p2 := takeCommaGroups p1.2
  let p3 := takeFrac p2.2
  (p1.1 ++ p2.1 ++ p3.1, dropKSuffix p3.2)

/-- The `re.findall` scan, with explicit fuel so that it is structural
and kernel-computable; `scanNums` below supplies fuel equal to the input
length, which `scanNumsF_eq` proves sufficient (each match consumes at
least its leading digit). -/
def scanNumsF : Nat → List Char → List String
  | 0, _ => []
  | _ + 1, [] => []
  | fuel + 1, c :: cs =>
      if c.isDigit then
        let p := scanGroup (c :: cs)
        String.mk p.1 :: scanNumsF fuel p.2
      else scanNumsF fuel cs

/-- All group-1 captures of the salary pattern over the input. -/
def scanNums (l : List Char) : List String := scanNumsF l.length l

/-- Numeric value of a digit list, most significant first. -/
def natOfDigits (l : List Char) : Nat :=
  l.foldl (fun acc c => 10 * acc + (c.toNat - '0'.toNat)) 0

/-- Python `float(match.replace(',', ''))` on a captured token, modelled
exactly over the rationals. -/
def parseNumQ (t : String) : ℚ :=
  let cs := t.toList.filter (fun c => c ≠ ',')
  let ip := cs.takeWhile (fun c => c ≠ '.')
  let fp := (cs.dropWhile (fun c => c ≠ '.')).drop 1
  (natOfDigits ip : ℚ) + (natOfDigits fp : ℚ) / ((10 : ℚ) ^ fp.length)

/-- Result record of `extract_salary_structured`. -/
structure SalaryStruct where
  min : Option Int
  max : Option Int
  currency : String
  equity_offered : Bool
deriving DecidableEq, Repr

/-- Equity keyword list of the source, in order. -/
def equityKeywords : List String := ["equity", "stock options", "rsu", "options", "stock"]

/-- Currency symbol table of the source, in insertion order. -/
def currencyMap : List (String × String) :=
  [("$", "USD"), ("£", "GBP"), ("€", "EUR"), ("¥", "JPY")]

/-- Embedding of `extract_salary_structured` (scraper.py lines 563-632). -/
def extract_salary_structured (salary_text : String) : SalaryStruct :=
  if salary_text = "" || salary_text = "N/A" then
    ⟨none, none, "USD", false⟩
  else
    let lower := strLower salary_text
    let equity := equityKeywords.any (fun kw => strContainsSub lower kw)
    let currency :=
      match currencyMap.find? (fun p => strContainsSub salary_text p.1) with
      | some p => p.2
      | none => "USD"
    let hasK := strContainsSub lower "k"
    let nums : List Int := (scanNums salary_text.toList).map (fun t =>
      let q := parseNumQ t
      let q := if hasK && decide (q < 1000) then q * 1000 else q
      Int.floor q)
    match nums with
    | [] => ⟨none, none, currency, equity⟩
    | [n] => ⟨some n, some n, currency, equity⟩
    | n1 :: n2 :: _ => ⟨some (Min.min n1 n2), some (Max.max n1 n2), currency, equity⟩

/-- The claim's description of salary extraction, written from the spec
sentences: currency is the code of the first-listed symbol occurring in
the input, default USD; equity iff an equity keyword occurs
case-insensitively; tokens match the pattern with commas stripped and the
K-multiplication rule; zero tokens give null bounds, one token gives
min = max, two or more give the min and max of the first two. -/
def salaryStructSpec (s : String) : SalaryStruct :=
  let tokens := scanNums s.toList
  let kPresent := strContainsSub (strLower s) "k"
  let nums : List Int := tokens.map (fun t =>
    let q := parseNumQ t
    Int.floor (if kPresent && decide (q < 1000) then q * 1000 else q))
  { currency :=
      match currencyMap.find? (fun p => strContainsSub s p.1) with
      | some p => p.2
      | none => "USD"
    equity_offered := equityKeywords.any (fun kw => strContainsSub (strLower s) kw)
    min :=
      match nums with
      | [] => none
      | [n] => some n
      | n1 :: n2 :: _ => some (Min.min n1 n2)
    max :=
      match nums with
      | [] => none
      | [n] => some n
      | n1 :: n2 :: _ => some (Max.max n1 n2) }


/-! ## SQL values and Python dictionaries

A SQLite column value, as bound from Python.  `list` represents a Python
list value travelling inside a record dictionary (the `skills` field of
`dataclasses.asdict`); the model stores bound values as given and does
not model driver-level binding type checks. -/

inductive SqlValue where
  | null
  | text (s : String)
  | int (n : Int)
  | real (q : ℚ)
  | list (l : List String)
deriving DecidableEq, Repr

/-- A Python dictionary with string keys, as an association list (first
binding of a key wins; the model only ever builds lists with distinct
keys). -/
abbrev PyDict := List (String × SqlValue)

/-- Look up a key: `some v` when present (possibly `some .null`). -/
def dictFind (d : PyDict) (k : String) : Option SqlValue :=
  (d.find? (fun p => p.1 = k)).map (fun p => p.2)

/-- Python `k in d`. -/
def hasKey (d : PyDict) (k : String) : Bool := (d.find? (fun p => p.1 = k)).isSome

/-- Python `d.get(k)`: `None` when the key is absent. -/
def dictGet (d : PyDict) (k : String) : SqlValue := (dictFind d k).getD .null

/-- Python `d.get(k, dflt)`. -/
def dictGetD (d : PyDict) (k : String) (dflt : SqlValue) : SqlValue :=
  (dictFind d k).getD dflt

/-- The string carried by a text value (callers only apply this to text). -/
def asText (v : SqlValue) : String :=
  match v with
  | .text s => s
  | _ => ""

/-- Python `str(v)` as used by `_detect_job_changes` (only `None` and
strings reach it in the modelled flows). -/
def pyStr (v : SqlValue) : String :=
  match v with
  | .null => "None"
  | .text s => s
  | .int n => toString n
  | .real q => toString q
  | .list l => toString l

/-- Python `!=` between two values as they occur in job dictionaries
(`None` differs from every string; numbers compare numerically). -/
def pyNe (a b : SqlValue) : Bool :=
  match a, b with
  | .null, .null => false
  | .text s, .text t => s ≠ t
  | .int n, .int m => n ≠ m
  | .real p, .real q => p ≠ q
  | .int n, .real q => (n : ℚ) ≠ q
  | .real q, .int n => q ≠ (n : ℚ)
  | .list l, .list m => l ≠ m
  | _, _ => true

/-! ## The store (db.py)

Tables are lists of rows.  `jobs_fts` holds the rows of the full-text
index as maintained by the three triggers of `initialize_schema`
(db.py lines 222-242). -/

/-- One row of the `jobs_fts` index, with the five column values the
triggers copy. -/
structure FtsRow where
  job_id : SqlValue
  title : SqlValue
  company : SqlValue
  raw_description : SqlValue
  skills : SqlValue
deriving DecidableEq, Repr

/-- One row of the `job_changes` audit table (db.py lines 196-207). -/
structure ChangeRow where
  job_id : String
  changed_at : String
  field_name : String
  old_value : String
  new_value : String
deriving DecidableEq, Repr

/-- One row of the `profiles` table (db.py lines 142-156).  `enabled` is
the stored integer (SQLite has no booleans). -/
structure ProfileRow where
  id : Int
  name : String
  location : String
  keywords : String
  distance : Int
  time_filter : String
  refresh_interval : Int
  enabled : Int
  last_scraped_at : Option String
  created_at : String
  updated_at : String
deriving DecidableEq, Repr

/-- One row of the `applications` table (db.py lines 159-172). -/
structure AppRow where
  id : Int
  job_id : String
  applied_at : String
  status : String
  notes : String
  created_at : String
  updated_at : String
deriving DecidableEq, Repr

/-- One row of the `company_enrichment` table (db.py lines 175-193),
restricted to the columns the job queries join on. -/
structure EnrichRow where
  normalized_company_name : String
  company_size : SqlValue
  company_industry : SqlValue
deriving DecidableEq, Repr

/-- The database state. -/
structure Store where
  jobs : List PyDict
  jobs_fts : List FtsRow
  job_changes : List ChangeRow
  profiles : List ProfileRow
  applications : List AppRow
  company_enrichment : List EnrichRow
deriving DecidableEq, Repr

/-- A freshly initialized empty database. -/
def emptyStore : Store := ⟨[], [], [], [], [], []⟩

/-- The column list of `upsert_jobs` (db.py lines 309-318). -/
def jobsColumns : List String :=
  ["job_id", "title", "company", "normalized_company_name", "location",
   "posted_date", "posted_date_iso", "scraped_at", "last_seen",
   "salary_min", "salary_max", "salary_currency", "equity_offered",
   "remote_eligible", "visa_sponsorship", "skills", "easy_apply",
   "number_of_applicants", "description_summary", "key_requirements",
   "key_responsibilities_preview", "raw_description", "employment_type",
   "seniority_level", "job_function", "industries", "benefits_badge",
   "company_url", "url", "profile_id", "source"]

/-- First preparation step of `upsert_jobs` (db.py lines 301-302): fill
`normalized_company_name` from `company` when the key is absent. -/
def fillNorm (j : PyDict) : PyDict :=
  if hasKey j "normalized_company_name" then j
  else j ++ [("normalized_company_name",
    SqlValue.text (normalize_company_name (asText (dictGet j "company"))))]

/-- Second preparation step of `upsert_jobs` (db.py lines 305-306): fill
`last_seen` with the current time when the key is absent. -/
def fillLastSeen (now : String) (j : PyDict) : PyDict :=
  if hasKey j "last_seen" then j else j ++ [("last_seen", SqlValue.text now)]

/-- The in-place preparation of one record by `upsert_jobs`
(db.py lines 300-306). -/
def prepareJob (now : String) (j : PyDict) : PyDict := fillLastSeen now (fillNorm j)

/-- The bound row `[job.get(col) for col in columns]` (db.py lines 324-327),
kept as a dictionary keyed by the column names (which is also what
`dict(row)` of a fetched row yields). -/
def mkRow (j : PyDict) : PyDict := jobsColumns.map (fun c => (c, dictGet j c))

/-- The row the `jobs_fts_insert` trigger adds for an inserted jobs row. -/
def mkFtsRow (row : PyDict) : FtsRow :=
  ⟨dictGet row "job_id", dictGet row "title", dictGet row "company",
   dictGet row "raw_description", dictGet row "skills"⟩

/-- One `INSERT OR REPLACE INTO jobs` of a bound row.  SQLite's REPLACE
deletes a conflicting row without firing delete triggers (delete triggers
fire for REPLACE only under `PRAGMA recursive_triggers`, which the source
never enables), and the insert fires `jobs_fts_insert`, which appends an
index row; `jobs_fts_update` fires only on UPDATE statements, which
`upsert_jobs` never issues. -/
def insertOrReplaceJob (st : Store) (row : PyDict) : Store :=
  { st with
    jobs := st.jobs.filter (fun r => dictGet r "job_id" ≠ dictGet row "job_id") ++ [row],
    jobs_fts := st.jobs_fts ++ [mkFtsRow row] }

/-- Embedding of `upsert_jobs` (db.py lines 281-334): prepare each record,
bind it to the column list, and INSERT OR REPLACE each row; returns the
affected row count. -/
def upsert_jobs (st : Store) (now : String) (jobs : List PyDict) : Store × Nat :=
  if jobs.isEmpty then (st, 0)
  else
    let prepared := jobs.map (prepareJob now)
    (prepared.foldl (fun s j => insertOrReplaceJob s (mkRow j)) st, prepared.length)

/-- Embedding of `get_job` (db.py lines 336-354): the first jobs row whose
`job_id` column equals the argument, as a dictionary. -/
def get_job (st : Store) (job_id : String) : Option PyDict :=
  st.jobs.find? (fun r => dictGet r "job_id" = SqlValue.text job_id)

/-- Embedding of `record_job_change` (db.py lines 952-972). -/
def record_job_change (st : Store) (now : String) (job_id : String)
    (field_name old_value new_value : String) : Store :=
  { st with job_changes := st.job_changes ++ [⟨job_id, now, field_name, old_value, new_value⟩] }

/-! ## Profile operations (db.py lines 554-736) -/

/-- AUTOINCREMENT id for a new profiles row. -/
def nextProfileId (rows : List ProfileRow) : Int :=
  (rows.foldl (fun m r => Max.max m r.id) 0) + 1

/-- The input dictionary accepted by `upsert_profile`: `name`, `location`
and `keywords` are accessed unconditionally (a KeyError otherwise), the
remaining keys via `.get` with defaults. -/
structure ProfileInput where
  name : String
  location : String
  keywords : String
  distance : Option Int := none
  time_filter : Option String := none
  refresh_interval : Option Int := none
  enabled : Option Int := none
deriving DecidableEq, Repr

/-- Embedding of `upsert_profile` (db.py lines 554-622): update the row
whose `name` matches, else insert a new row; `distance`, `time_filter`,
`refresh_interval` and `enabled` fall back to 25 / "r7200" / 3600 / 1 when
absent from the input dictionary.  Returns the profile id. -/
def upsert_profile (st : Store) (now : String) (p : ProfileInput) : Store × Int :=
  match st.profiles.find? (fun r => r.name = p.name) with
  | some row =>
      let updated : ProfileRow :=
        { row with
          location := p.location, keywords := p.keywords,
          distance := p.distance.getD 25,
          time_filter := p.time_filter.getD "r7200",
          refresh_interval := p.refresh_interval.getD 3600,
          enabled := p.enabled.getD 1,
          updated_at := now }
      ({ st with profiles := st.profiles.map (fun r => if r.id = row.id then updated else r) },
       row.id)
  | none =>
      let newId := nextProfileId st.profiles
      ({ st with profiles := st.profiles ++
          [⟨newId, p.name, p.location, p.keywords, p.distance.getD 25,
            p.time_filter.getD "r7200", p.refresh_interval.getD 3600,
            p.enabled.getD 1, none, now, now⟩] },
       newId)

/-- Embedding of `list_profiles` (db.py lines 644-663); the model keeps
table order (rows are created with monotone `created_at`). -/
def list_profiles (st : Store) (enabled_only : Bool) : List ProfileRow :=
  if enabled_only then st.profiles.filter (fun r => r.enabled = 1) else st.profiles

/-- Embedding of `seed_default_profile` (db.py lines 700-736). -/
def seed_default_profile (st : Store) (now : String) : Store × Option Int :=
  if st.profiles.length > 0 then (st, none)
  else
    let r := upsert_profile st now
      { name := "default", location := "San Francisco, CA",
        keywords := "AI Engineer OR ML Engineer OR Research Engineer",
        distance := some 25, time_filter := some "r7200",
        refresh_interval := some 7200, enabled := some 1 }
    (r.1, some r.2)

/-! ## The scrape cycle (background_scraper.py lines 160-245) -/

/-- The `JobDetail` dataclass (scraper.py lines 73-104). -/
structure JobDetail where
  job_id : String
  url : String
  source : String
  scraped_at : String
  title : String
  company : String
  company_url : String
  location : String
  posted_date : String
  posted_date_iso : String
  number_of_applicants : String
  salary : String
  raw_description : String
  employment_type : String
  seniority_level : String
  job_function : String
  industries : String
  skills : List String
  company_details : String
  salary_min : Option ℚ
  salary_max : Option ℚ
  salary_currency : String
  equity_offered : Bool
  remote_eligible : Bool
  visa_sponsorship : Bool
  easy_apply : Bool
  normalized_company_name : String
deriving DecidableEq, Repr

/-- A Python bool as bound to SQLite (True is 1, False is 0). -/
def boolVal (b : Bool) : SqlValue := SqlValue.int (if b then 1 else 0)

/-- An optional float field as bound to SQLite. -/
def optRealVal (o : Option ℚ) : SqlValue :=
  match o with
  | some q => SqlValue.real q
  | none => SqlValue.null

/-- Embedding of `dataclasses.asdict` of a `JobDetail`, in field order. -/
def asdict (d : JobDetail) : PyDict :=
  [("job_id", .text d.job_id), ("url", .text d.url), ("source", .text d.source),
   ("scraped_at", .text d.scraped_at), ("title", .text d.title),
   ("company", .text d.company), ("company_url", .text d.company_url),
   ("location", .text d.location), ("posted_date", .text d.posted_date),
   ("posted_date_iso", .text d.posted_date_iso),
   ("number_of_applicants", .text d.number_of_applicants),
   ("salary", .text d.salary), ("raw_description", .text d.raw_description),
   ("employment_type", .text d.employment_type),
   ("seniority_level", .text d.seniority_level),
   ("job_function", .text d.job_function), ("industries", .text d.industries),
   ("skills", .list d.skills), ("company_details", .text d.company_details),
   ("salary_min", optRealVal d.salary_min), ("salary_max", optRealVal d.salary_max),
   ("salary_currency", .text d.salary_currency),
   ("equity_offered", boolVal d.equity_offered),
   ("remote_eligible", boolVal d.remote_eligible),
   ("visa_sponsorship", boolVal d.visa_sponsorship),
   ("easy_apply", boolVal d.easy_apply),
   ("normalized_company_name", .text d.normalized_company_name)]

/-- The tracked fields of `_detect_job_changes`
(background_scraper.py line 232). -/
def fieldsToTrack : List String := ["salary", "number_of_applicants", "raw_description"]

/-- Embedding of `_detect_job_changes` (background_scraper.py lines
225-245): for each tracked field, compare `old_job.get(field, "")` with
`new_job.get(field, "")` and record one change row when they differ. -/
def detect_job_changes (st : Store) (now : String) (old_job new_job : PyDict) : Store :=
  fieldsToTrack.foldl (fun s field =>
    let old_value := dictGetD old_job field (SqlValue.text "")
    let new_value := dictGetD new_job field (SqlValue.text "")
    if pyNe old_value new_value then
      record_job_change s now (asText (dictGet old_job "job_id")) field
        (pyStr old_value) (pyStr new_value)
    else s) st

/-- Result of the detail-processing loop of `_scrape_profile_once`. -/
structure CycleOut where
  store : Store
  batch : List PyDict
  skipped : Nat
deriving Repr

/-- The detail-processing loop of `_scrape_profile_once`
(background_scraper.py lines 195-214): skip details whose title or company
is the sentinel, attach `profile_id`, and record change rows against the
stored row when the job already exists. -/
def processDetails (st : Store) (now : String) (profile_id : Int) :
    List JobDetail → CycleOut
  | [] => ⟨st, [], 0⟩
  | d :: rest =>
      if d.title = "N/A" || d.company = "N/A" then
        let out := processDetails st now profile_id rest
        { out with skipped := out.skipped + 1 }
      else
        let job_dict := asdict d ++ [("profile_id", SqlValue.int profile_id)]
        let st' :=
          match get_job st d.job_id with
          | some existing => detect_job_changes st now existing job_dict
          | none => st
        let out := processDetails st' now profile_id rest
        { out with batch := job_dict :: out.batch }

/-- Steps 5-6 of a scrape cycle (background_scraper.py lines 195-219):
process the fetched details, then batch-upsert; returns the new store and
the affected count. -/
def scrape_cycle_persist (st : Store) (now : String) (profile_id : Int)
    (details : List JobDetail) : Store × Nat :=
  let out := processDetails st now profile_id details
  upsert_jobs out.store now out.batch

/-! ## The worker scheduler (background_scraper.py lines 34-132) -/

/-- Scheduler state: the `profile_id → task` map as an association list,
plus a counter handing out distinct task handles. -/
structure Scheduler where
  worker_tasks : List (Int × Nat)
  next_task : Nat
deriving DecidableEq, Repr

/-- Embedding of `_spawn_worker` (background_scraper.py lines 81-89):
a duplicate spawn for a tracked id is a no-op; otherwise a fresh task is
created and tracked. -/
def spawn_worker (sch : Scheduler) (pid : Int) : Scheduler :=
  if (sch.worker_tasks.find? (fun t => t.1 = pid)).isSome then sch
  else ⟨sch.worker_tasks ++ [(pid, sch.next_task)], sch.next_task + 1⟩

/-- Embedding of `_kill_worker` (background_scraper.py lines 91-102):
cancel, await, and drop the map entry. -/
def kill_worker (sch : Scheduler) (pid : Int) : Scheduler :=
  { sch with worker_tasks := sch.worker_tasks.filter (fun t => t.1 ≠ pid) }

/-- One iteration of `_reload_profiles_loop` (background_scraper.py lines
104-132): read the enabled profiles (`list_profiles()` defaults to
enabled-only), spawn workers for new enabled ids, kill workers for ids no
longer listed, and kill workers for listed-but-disabled ids.  Python
iterates the id sets in arbitrary order; the model iterates in list
order, which the tracked-id set does not depend on. -/
def reload_iteration (st : Store) (sch : Scheduler) : Scheduler :=
  let current := list_profiles st true
  let runningIds := sch.worker_tasks.map (fun t => t.1)
  let currentIds := current.map (fun p => p.id)
  let sch := current.foldl (fun s p =>
    if runningIds.contains p.id then s
    else if p.enabled ≠ 0 then spawn_worker s p.id else s) sch
  let sch := runningIds.foldl (fun s pid =>
    if currentIds.contains pid then s else kill_worker s pid) sch
  current.foldl (fun s p =>
    if runningIds.contains p.id && decide (p.enabled = 0) then kill_worker s p.id
    else s) sch

/-- Embedding of `start` (background_scraper.py lines 46-65): seed the
default profile when none exist, then spawn one worker per enabled
profile. -/
def start_service (st : Store) (now : String) (sch : Scheduler) : Store × Scheduler :=
  let stp :=
    if (list_profiles st true).isEmpty then (seed_default_profile st now).1 else st
  (stp, (list_profiles stp true).foldl (fun s p =>
    if p.enabled ≠ 0 then spawn_worker s p.id else s) sch)

/-! ## Job queries (db.py lines 356-526) -/

/-- Python truthiness of an `Optional[int]` (`None` and `0` are falsy). -/
def truthyOptInt (o : Option Int) : Bool :=
  match o with
  | none => false
  | some n => n ≠ 0

/-- Python truthiness of an `Optional[str]` (`None` and `""` are falsy). -/
def truthyOptStr (o : Option String) : Bool :=
  match o with
  | none => false
  | some s => s ≠ ""

/-- SQL `value LIKE '%needle%'` on a column value (NULL never matches). -/
def sqlLikeContains (v : SqlValue) (needle : String) : Bool :=
  match v with
  | .text s => strContainsSub s needle
  | _ => false

/-- SQL `LOWER(value) LIKE LOWER('%needle%')`. -/
def sqlLikeContainsLower (v : SqlValue) (needle : String) : Bool :=
  match v with
  | .text s => strContainsSub (strLower s) (strLower needle)
  | _ => false

/-- SQL `value >= bound` for TEXT columns (NULL comparisons are not
true). -/
def sqlTextGe (v : SqlValue) (bound : String) : Bool :=
  match v with
  | .text s => bound ≤ s
  | _ => false

/-- The application row LEFT-JOINed to a jobs row (`applications` has a
UNIQUE constraint on `job_id`). -/
def joinedApp (st : Store) (r : PyDict) : Option AppRow :=
  st.applications.find? (fun a => dictGet r "job_id" = SqlValue.text a.job_id)

/-- The enrichment row LEFT-JOINed to a jobs row (UNIQUE on the
normalized name). -/
def joinedEnrich (st : Store) (r : PyDict) : Option EnrichRow :=
  st.company_enrichment.find?
    (fun c => dictGet r "normalized_company_name" = SqlValue.text c.normalized_company_name)

/-- The WHERE clause built by `query_jobs` and `count_jobs` (db.py lines
403-434 and 489-519), as a row predicate: each filter contributes its
clause only when the argument is truthy.  `ftsMatch` abstracts the FTS5
MATCH of a keywords query against an index row, and `cutoffIso` abstracts
`(now - timedelta(hours=n)).isoformat()`. -/
def jobWherePred (st : Store) (ftsMatch : String → FtsRow → Bool)
    (cutoffIso : Int → String) (company location keywords : Option String)
    (posted_after_hours : Option Int) (remote_only visa_sponsorship : Bool)
    (application_status : Option String) (r : PyDict) : Bool :=
  (if truthyOptStr company then
    sqlLikeContains (dictGet r "normalized_company_name")
      (normalize_company_name (company.getD "")) else true) &&
  (if truthyOptStr location then
    sqlLikeContainsLower (dictGet r "location") (location.getD "") else true) &&
  (if truthyOptStr keywords then
    (st.jobs_fts.filter (ftsMatch (keywords.getD ""))).any
      (fun fr => fr.job_id ≠ SqlValue.null && fr.job_id = dictGet r "job_id") &&
      dictGet r "job_id" ≠ SqlValue.null
    else true) &&
  (if truthyOptInt posted_after_hours then
    sqlTextGe (dictGet r "posted_date_iso") (cutoffIso (posted_after_hours.getD 0))
    else true) &&
  (if remote_only then dictGet r "remote_eligible" = SqlValue.int 1 else true) &&
  (if visa_sponsorship then dictGet r "visa_sponsorship" = SqlValue.int 1 else true) &&
  (if truthyOptStr application_status then
    (if application_status.getD "" = "not_applied" then (joinedApp st r).isNone
     else match joinedApp st r with
       | some a => a.status = application_status.getD ""
       | none => false)
    else true)

/-- The sort key of a jobs row for a given `sort_by` (db.py lines 441-446):
`none` corresponds to SQL NULL, which sorts last under DESC. -/
def sortKeyText (r : PyDict) (col : String) : Option String :=
  match dictGet r col with
  | .text s => some s
  | _ => none

/-- SQLite `CAST(text AS INTEGER)`: optional sign and leading digits,
else 0; NULL stays NULL. -/
def castTextInt (v : SqlValue) : Option Int :=
  match v with
  | .null => none
  | .int n => some n
  | .real q => some (Rat.floor q)
  | .text s =>
      let cs := s.toList.dropWhile Char.isWhitespace
      let core := match cs with
        | '-' :: rest => (true, rest.takeWhile Char.isDigit)
        | _ => (false, cs.takeWhile Char.isDigit)
      let mag : Int := natOfDigits core.2
      some (if core.1 then -mag else mag)
  | .list _ => some 0

/-- DESC comparison used by ORDER BY on TEXT keys, with NULLs last. -/
def descLeStr : Option String → Option String → Bool
  | none, none => true
  | none, some _ => false
  | some _, none => true
  | some a, some b => decide (b ≤ a)

/-- DESC comparison used by ORDER BY on cast INTEGER keys, with NULLs
last. -/
def descLeInt : Option Int → Option Int → Bool
  | none, none => true
  | none, some _ => false
  | some _, none => true
  | some a, some b => decide (b ≤ a)

/-- ORDER BY of `query_jobs`: the three sort keys, defaulting to
`posted_date_iso DESC`. -/
def sortJobRows (sort_by : String) (rows : List PyDict) : List PyDict :=
  if sort_by = "scraped_at" then
    rows.mergeSort (fun a b => descLeStr (sortKeyText a "scraped_at") (sortKeyText b "scraped_at"))
  else if sort_by = "applicants" then
    rows.mergeSort (fun a b =>
      descLeInt (castTextInt (dictGet a "number_of_applicants"))
        (castTextInt (dictGet b "number_of_applicants")))
  else
    rows.mergeSort (fun a b =>
      descLeStr (sortKeyText a "posted_date_iso") (sortKeyText b "posted_date_iso"))

/-- The joined columns `query_jobs` SELECTs alongside `j.*`. -/
def joinColumns (st : Store) (r : PyDict) : PyDict :=
  let app := joinedApp st r
  let enr := joinedEnrich st r
  [("application_status", match app with | some a => SqlValue.text a.status | none => SqlValue.null),
   ("applied_at", match app with | some a => SqlValue.text a.applied_at | none => SqlValue.null),
   ("company_size", match enr with | some c => c.company_size | none => SqlValue.null),
   ("company_industry", match enr with | some c => c.company_industry | none => SqlValue.null)]

/-- Embedding of `query_jobs` (db.py lines 356-458): filter with the
composable WHERE clause, sort, paginate (SQLite treats a negative LIMIT
as unlimited), and return the joined rows. -/
def query_jobs (st : Store) (ftsMatch : String → FtsRow → Bool)
    (cutoffIso : Int → String) (company location keywords : Option String)
    (posted_after_hours : Option Int) (remote_only visa_sponsorship : Bool)
    (application_status : Option String) (limit offset : Int)
    (sort_by : String) : List PyDict :=
  let filtered := st.jobs.filter
    (jobWherePred st ftsMatch cutoffIso company location keywords
      posted_after_hours remote_only visa_sponsorship application_status)
  let sorted := sortJobRows sort_by filtered
  let page := sorted.drop offset.toNat
  let page := if limit < 0 then page else page.take limit.toNat
  page.map (fun r => r ++ joinColumns st r)

/-- Embedding of `count_jobs` (db.py lines 460-526):
`COUNT(DISTINCT j.job_id)` over the same WHERE clause. -/
def count_jobs (st : Store) (ftsMatch : String → FtsRow → Bool)
    (cutoffIso : Int → String) (company location keywords : Option String)
    (posted_after_hours : Option Int) (remote_only visa_sponsorship : Bool)
    (application_status : Option String) : Nat :=
  (((st.jobs.filter
    (jobWherePred st ftsMatch cutoffIso company location keywords
      posted_after_hours remote_only visa_sponsorship application_status)).map
    (fun r => dictGet r "job_id")).dedup).length

/-! ## The fetcher (scraper.py lines 347-404) -/

/-- What attempt `i` of a GET observes. -/
inductive FetchOutcome where
  | status (code : Nat)
  | transportError
deriving DecidableEq, Repr

/-- How `request_with_backoff` terminates. -/
inductive FetchResult where
  | success (code : Nat)
  | httpStatusError (code : Nat)
  | requestError
  | runtimeError
deriving DecidableEq, Repr

/-- Trace of one `request_with_backoff` call: number of GET attempts
issued, backoff sleeps performed between attempts (in seconds), and the
outcome. -/
structure BackoffTrace where
  attempts : Nat
  delays : List ℚ
  result : FetchResult
deriving DecidableEq, Repr

/-- The rate-limit statuses retried by the dedicated branch
(scraper.py line 378). -/
def retriableStatus (c : Nat) : Bool := c = 429 || c = 503

/-- Statuses on which `httpx.Response.raise_for_status` raises. -/
def errorStatus (c : Nat) : Bool := 400 ≤ c && c < 600

/-- The attempt loop of `request_with_backoff` (scraper.py lines 373-404),
by recursion on the remaining iterations of `range(max_retries)`;
`attempt` is the absolute attempt index.  A retriable status or an error
sleeps `base · 2^attempt` and continues unless this is the last attempt,
in which case the typed error propagates; exhausting the range without an
attempt (only possible with `max_retries = 0`) reaches the trailing
`RuntimeError`.  The pre-loop jitter sleep and semaphore acquisition do
not affect the trace. -/
def rwbGo (outcomes : Nat → FetchOutcome) (base : ℚ) : Nat → Nat → BackoffTrace
  | _, 0 => ⟨0, [], .runtimeError⟩
  | attempt, remaining + 1 =>
      match outcomes attempt with
      | .status c =>
          if retriableStatus c then
            if remaining ≠ 0 then
              let t := rwbGo outcomes base (attempt + 1) remaining
              ⟨t.attempts + 1, base * 2 ^ attempt :: t.delays, t.result⟩
            else ⟨1, [], .httpStatusError c⟩
          else if errorStatus c then
            if remaining ≠ 0 then
              let t := rwbGo outcomes base (attempt + 1) remaining
              ⟨t.attempts + 1, base * 2 ^ attempt :: t.delays, t.result⟩
            else ⟨1, [], .httpStatusError c⟩
          else ⟨1, [], .success c⟩
      | .transportError =>
          if remaining ≠ 0 then
            let t := rwbGo outcomes base (attempt + 1) remaining
            ⟨t.attempts + 1, base * 2 ^ attempt :: t.delays, t.result⟩
          else ⟨1, [], .requestError⟩

/-- Embedding of `request_with_backoff` (scraper.py lines 347-404). -/
def request_with_backoff (outcomes : Nat → FetchOutcome) (max_retries : Nat)
    (base_delay : ℚ) : BackoffTrace :=
  rwbGo outcomes base_delay 0 max_retries

/-- An outcome every branch of the loop retries. -/
def retriableOutcome (o : FetchOutcome) : Bool :=
  match o with
  | .status c => retriableStatus c || errorStatus c
  | .transportError => true

/-- The typed error the last attempt raises for a given outcome. -/
def errorFor (o : FetchOutcome) : FetchResult :=
  match o with
  | .status c => .httpStatusError c
  | .transportError => .requestError

/-! ## Listing search (scraper.py lines 407-473) -/

/-- The `JobSummary` dataclass (scraper.py lines 59-70). -/
structure JobSummary where
  job_id : String
  title : String
  company : String
  company_url : String
  location : String
  posted_date : String
  posted_date_iso : String
  job_url : String
  benefits_badge : String
deriving DecidableEq, Repr

/-- Embedding of `search_jobs_pages` (scraper.py lines 407-473).
`fetchParse page` is the combined fetch-and-parse of listing page `page`
(anything raised inside the per-page `try` is an `error`).  Every page is
attempted in order regardless of earlier failures (the trace of attempted
pages is returned), a failed page contributes nothing, and each parsed
card is kept iff its `job_id` is not the sentinel.  The function is
total: no input makes it raise. -/
def search_jobs_pages (fetchParse : Nat → Except String (List JobSummary))
    (num_pages : Nat) : List JobSummary × List Nat :=
  (List.range num_pages).foldl (fun acc page =>
    match fetchParse page with
    | .ok cards => (acc.1 ++ cards.filter (fun s => s.job_id ≠ "N/A"), acc.2 ++ [page])
    | .error _ => (acc.1, acc.2 ++ [page])) ([], [])


/-- The keep condition of the detail-processing loop: a detail survives
iff neither its title nor its company is the sentinel. -/
def keepDetail (d : JobDetail) : Bool := !(d.title = "N/A" || d.company = "N/A")

/-- The normalized-company-name row invariant of the spec. -/
def rowNormInv (r : PyDict) : Prop :=
  dictGet r "normalized_company_name" =
    SqlValue.text (normalize_company_name (asText (dictGet r "company")))

/-- The profile ids currently tracked by the scheduler. -/
def workerIds (sch : Scheduler) : List Int := sch.worker_tasks.map (fun t => t.1)

/-- A response sequence consisting only of 429s. -/
def outcomes429 : Nat → FetchOutcome := fun _ => FetchOutcome.status 429


/-! ## Concrete fixtures used by counterexamples and witnesses -/

/-- A minimal job record in the style of the repository's tests. -/
def j42 : PyDict :=
  [("job_id", .text "42"), ("title", .text "ML Engineer"),
   ("company", .text "Acme Corp"), ("location", .text "SF"),
   ("posted_date", .text "2026-02-15"),
   ("posted_date_iso", .text "2026-02-15T10:00:00Z"),
   ("scraped_at", .text "T0"), ("raw_description", .text "Python")]

/-- A job record whose company carries an ` Inc.` suffix and whose
normalized name is left to the upsert auto-fill. -/
def jAcme : PyDict :=
  [("job_id", .text "7"), ("title", .text "Engineer"),
   ("company", .text "Acme Inc."), ("location", .text "SF"),
   ("posted_date", .text "p"), ("posted_date_iso", .text "pi"),
   ("scraped_at", .text "T0"), ("raw_description", .text "d")]

/-- A fully parsed job detail as the scrape cycle sees it. -/
def detail123 : JobDetail :=
  { job_id := "123", url := "u", source := "linkedin", scraped_at := "T1",
    title := "Engineer", company := "Acme", company_url := "cu",
    location := "SF", posted_date := "pd",
    posted_date_iso := "2026-02-15T10:00:00Z",
    number_of_applicants := "50", salary := "$100K - $150K",
    raw_description := "D1", employment_type := "et",
    seniority_level := "sl", job_function := "jf", industries := "ind",
    skills := [], company_details := "N/A",
    salary_min := none, salary_max := none, salary_currency := "USD",
    equity_offered := false, remote_eligible := false,
    visa_sponsorship := false, easy_apply := false,
    normalized_company_name := "acme" }

/-- The same detail as observed by a later cycle: identical tracked
fields, fresh scrape timestamp. -/
def detail123b : JobDetail := { detail123 with scraped_at := "T2" }

/-- A sentinel-valued detail as produced by a failed detail fetch
(scraper.py lines 499-528), for the job id "9". -/
def detailNA : JobDetail :=
  { job_id := "9", url := "u9", source := "linkedin", scraped_at := "T2",
    title := "N/A", company := "N/A", company_url := "N/A",
    location := "N/A", posted_date := "N/A", posted_date_iso := "N/A",
    number_of_applicants := "N/A", salary := "N/A",
    raw_description := "N/A", employment_type := "N/A",
    seniority_level := "N/A", job_function := "N/A", industries := "N/A",
    skills := [], company_details := "N/A",
    salary_min := none, salary_max := none, salary_currency := "USD",
    equity_offered := false, remote_eligible := false,
    visa_sponsorship := false, easy_apply := false,
    normalized_company_name := "N/A" }

/-- A stored row for job "9" that a cycle must not overwrite. -/
def row9 : PyDict :=
  mkRow [("job_id", SqlValue.text "9"), ("title", SqlValue.text "Old"),
    ("company", SqlValue.text "OldCo"),
    ("normalized_company_name", SqlValue.text "oldco"),
    ("location", SqlValue.text "SF"), ("posted_date", SqlValue.text "p"),
    ("posted_date_iso", SqlValue.text "pi"),
    ("scraped_at", SqlValue.text "T0"), ("last_seen", SqlValue.text "T0"),
    ("raw_description", SqlValue.text "old description")]

/-- A store holding only `row9`. -/
def store9 : Store := { emptyStore with jobs := [row9] }

/-- A profile input carrying a refresh interval below one hour. -/
def profile60 : ProfileInput :=
  { name := "fast", location := "SF", keywords := "ai",
    refresh_interval := some 60 }

/-- A profile input with no refresh interval given. -/
def profileDefault : ProfileInput :=
  { name := "plain", location := "SF", keywords := "ml" }


/-- A profiles table with one enabled and one disabled row. -/
def stW : Store :=
  { emptyStore with profiles :=
      [⟨1, "a", "SF", "ai", 25, "r7200", 7200, 1, none, "T0", "T0"⟩,
       ⟨2, "b", "SF", "ml", 25, "r7200", 7200, 0, none, "T0", "T0"⟩] }

/-- A scheduler still tracking a worker for a deleted profile id. -/
def schW : Scheduler := ⟨[(5, 0)], 1⟩


/-! ## Theorems -/

theorem takeDigitsUpTo_le (n : Nat) (l : List Char) :
    (takeDigitsUpTo n l).2.length ≤ l.length := by
  induction n generalizing l with
  | zero => simp [takeDigitsUpTo]
  | succ n ih =>
      cases l with
      | nil => simp [takeDigitsUpTo]
      | cons c cs =>
          simp only [takeDigitsUpTo]
          split
          · exact Nat.le_trans (ih cs) (Nat.le_succ _)
          · simp

theorem takeCommaGroups_le (l : List Char) :
    (takeCommaGroups l).2.length ≤ l.length := by
  induction l using takeCommaGroups.induct with
  | case1 a b c rest h ih =>
      simp only [takeCommaGroups, h, if_true, List.length_cons]
      omega
  | case2 a b c rest h =>
      simp [takeCommaGroups, h]
  | case3 l h =>
      have he : takeCommaGroups l = ([], l) := by
        rw [takeCommaGroups.eq_def]
        split
        · rename_i x a b c rest
          exact ((h a b c rest rfl).elim)
        · rfl
      simp [he]

theorem takeFrac_le (l : List Char) : (takeFrac l).2.length ≤ l.length := by
  rw [takeFrac.eq_def]
  split
  · rename_i x c rest
    split
    · have := (List.dropWhile_sublist (l := c :: rest) (p := Char.isDigit)).length_le
      simp only [List.length_cons] at this ⊢
      omega
    · simp
  · simp

theorem dropKSuffix_le (l : List Char) : (dropKSuffix l).length ≤ l.length := by
  have hdw := (List.dropWhile_sublist (l := l) (p := Char.isWhitespace)).length_le
  rw [dropKSuffix]
  split
  · next c cs heq =>
      rw [heq] at hdw
      split
      · simp only [List.length_cons] at hdw; omega
      · simpa using hdw
  · simp

theorem scanGroup_le (c : Char) (cs : List Char) (h : c.isDigit = true) :
    (scanGroup (c :: cs)).2.length ≤ cs.length := by
  have h1 : (takeDigitsUpTo 3 (c :: cs)).2 = (takeDigitsUpTo 2 cs).2 := by
    simp [takeDigitsUpTo, h]
  simp only [scanGroup]
  rw [h1]
  have h2 := takeDigitsUpTo_le 2 cs
  have h3 := takeCommaGroups_le (takeDigitsUpTo 2 cs).2
  have h4 := takeFrac_le (takeCommaGroups (takeDigitsUpTo 2 cs).2).2
  have h5 := dropKSuffix_le (takeFrac (takeCommaGroups (takeDigitsUpTo 2 cs).2).2).2
  omega

theorem scanNumsF_eq (f : Nat) :
    ∀ l : List Char, l.length ≤ f → scanNumsF f l = scanNums l := by
  induction f using Nat.strong_induction_on with
  | _ f ih =>
      intro l hl
      match f, l with
      | 0, l =>
          have : l = [] := List.eq_nil_of_length_eq_zero (Nat.le_zero.mp hl)
          subst this; rfl
      | f + 1, [] => rfl
      | f + 1, c :: cs =>
          simp only [List.length_cons] at hl
          by_cases hc : c.isDigit = true
          · have hcons : (c :: cs).length = cs.length + 1 := by simp
            have hle := scanGroup_le c cs hc
            have e1 : scanNumsF (f + 1) (c :: cs) =
                String.mk (scanGroup (c :: cs)).1 :: scanNumsF f (scanGroup (c :: cs)).2 := by
              simp [scanNumsF, hc]
            have e2 : scanNums (c :: cs) =
                String.mk (scanGroup (c :: cs)).1 :: scanNumsF cs.length (scanGroup (c :: cs)).2 := by
              simp only [scanNums, hcons]
              simp [scanNumsF, hc]
            rw [e1, e2]
            congr 1
            rw [ih f (Nat.lt_succ_self _) _ (Nat.le_trans hle (by omega)),
                ih cs.length (by omega) _ hle]
          · have e1 : scanNumsF (f + 1) (c :: cs) = scanNumsF f cs := by
              simp [scanNumsF, hc]
            have e2 : scanNums (c :: cs) = scanNumsF cs.length cs := by
              simp only [scanNums, List.length_cons]
              simp [scanNumsF, hc]
            rw [e1, e2, ih f (Nat.lt_succ_self _) cs (by omega),
                ih cs.length (by omega) cs le_rfl]


theorem extract_salary_eq_spec (s : String) :
    extract_salary_structured s = salaryStructSpec s := by
  by_cases h : (s = "" || s = "N/A") = true
  · rcases Bool.or_eq_true_iff.mp h with h | h
    · have : s = "" := of_decide_eq_true h
      subst this; decide
    · have : s = "N/A" := of_decide_eq_true h
      subst this; decide
  · rw [extract_salary_structured, if_neg h]
    rw [salaryStructSpec]
    cases hn : (scanNums s.toList).map (fun t =>
        let q := parseNumQ t
        let q := if (strContainsSub (strLower s) "k" && decide (q < 1000)) = true then q * 1000 else q
        Int.floor q) with
    | nil => simp only [hn]
    | cons n tail =>
        cases tail with
        | nil => simp only [hn]
        | cons m rest => simp only [hn]

/-- Value of a comma-free integer token. -/
theorem parseNumQ_int (t : String)
    (h : ∀ c ∈ t.toList.filter (fun c => c ≠ ','), c ≠ '.') :
    parseNumQ t = natOfDigits (t.toList.filter (fun c => c ≠ ',')) := by
  have h1 : (t.toList.filter (fun c => c ≠ ',')).takeWhile (fun c => c ≠ '.') =
      t.toList.filter (fun c => c ≠ ',') := by
    rw [List.takeWhile_eq_self_iff]
    intro x hx
    exact decide_eq_true (h x hx)
  have h2 : (t.toList.filter (fun c => c ≠ ',')).dropWhile (fun c => c ≠ '.') = [] := by
    rw [List.dropWhile_eq_nil_iff]
    intro x hx
    exact decide_eq_true (h x hx)
  simp only [parseNumQ]
  rw [h1, h2]
  simp [natOfDigits]

/-- C2.  `extract_salary_structured` computes exactly the record the claim
describes (currency from the first-listed symbol present, equity from the
case-insensitive keyword list, numeric tokens from the salary pattern with
commas stripped and the K-multiplication heuristic, and min/max from the
first two tokens), and evaluates as claimed on the two concrete inputs
`"€60K - €80K"` and `"$150,000/yr + RSU"`. -/
theorem extract_salary_structured_correct :
    (∀ s : String, extract_salary_structured s = salaryStructSpec s) ∧
    extract_salary_structured "€60K - €80K" =
      ⟨some 60000, some 80000, "EUR", false⟩ ∧
    extract_salary_structured "$150,000/yr + RSU" =
      ⟨some 150000, some 150000, "USD", true⟩ := by
  refine ⟨extract_salary_eq_spec, ?_, ?_⟩
  · rw [extract_salary_structured, if_neg (by decide)]
    have ht : scanNums "€60K - €80K".toList = ["60", "80"] := by decide
    have hk : strContainsSub (strLower "€60K - €80K") "k" = true := by decide
    have hcur : currencyMap.find? (fun p => strContainsSub "€60K - €80K" p.1) =
        some ("€", "EUR") := by decide
    have heq : (equityKeywords.any fun kw =>
        strContainsSub (strLower "€60K - €80K") kw) = false := by decide
    have h60 : parseNumQ "60" = 60 := by
      rw [parseNumQ_int _ (by decide),
        show natOfDigits ("60".toList.filter (fun c => c ≠ ',')) = 60 from by decide]
      norm_num
    have h80 : parseNumQ "80" = 80 := by
      rw [parseNumQ_int _ (by decide),
        show natOfDigits ("80".toList.filter (fun c => c ≠ ',')) = 80 from by decide]
      norm_num
    simp only [ht, hk, hcur, heq, List.map_cons, List.map_nil, h60, h80]
    norm_num
  · rw [extract_salary_structured, if_neg (by decide)]
    have ht : scanNums "$150,000/yr + RSU".toList = ["150,000"] := by decide
    have hk : strContainsSub (strLower "$150,000/yr + RSU") "k" = false := by decide
    have hcur : currencyMap.find? (fun p => strContainsSub "$150,000/yr + RSU" p.1) =
        some ("$", "USD") := by decide
    have heq : (equityKeywords.any fun kw =>
        strContainsSub (strLower "$150,000/yr + RSU") kw) = true := by decide
    have hv : parseNumQ "150,000" = 150000 := by
      rw [parseNumQ_int _ (by decide),
        show natOfDigits ("150,000".toList.filter (fun c => c ≠ ',')) = 150000 from by decide]
      norm_num
    simp only [ht, hk, hcur, heq, List.map_cons, List.map_nil, hv]
    norm_num



/-- Helper: the page loop of `search_jobs_pages` as a fold, fully
characterized. -/
theorem search_pages_foldl (fetchParse : Nat → Except String (List JobSummary))
    (pages : List Nat) (acc : List JobSummary × List Nat) :
    pages.foldl (fun acc page =>
      match fetchParse page with
      | .ok cards => (acc.1 ++ cards.filter (fun s => s.job_id ≠ "N/A"), acc.2 ++ [page])
      | .error _ => (acc.1, acc.2 ++ [page])) acc =
    (acc.1 ++ pages.flatMap (fun page =>
        match fetchParse page with
        | .ok cards => cards.filter (fun s => s.job_id ≠ "N/A")
        | .error _ => []),
     acc.2 ++ pages) := by
  induction pages generalizing acc with
  | nil => simp
  | cons p rest ih =>
      simp only [List.foldl_cons, List.flatMap_cons]
      cases hf : fetchParse p with
      | ok cards => rw [ih]; simp [hf]
      | error e => rw [ih]; simp [hf]

/-- C10.  `search_jobs_pages` attempts every page in order no matter
which pages fail (the per-page `try` swallows every exception, so the
function never raises), and returns exactly the summaries with
`job_id ≠ "N/A"` parsed from the pages that succeeded, in page order. -/
theorem search_jobs_pages_correct
    (fetchParse : Nat → Except String (List JobSummary)) (num_pages : Nat) :
    (search_jobs_pages fetchParse num_pages).2 = List.range num_pages ∧
    (search_jobs_pages fetchParse num_pages).1 =
      (List.range num_pages).flatMap (fun page =>
        match fetchParse page with
        | .ok cards => cards.filter (fun s => s.job_id ≠ "N/A")
        | .error _ => []) := by
  rw [search_jobs_pages, search_pages_foldl]
  simp

/-- C9.  Passing `posted_after_hours = 0` to `query_jobs` or `count_jobs`
applies no posted-date cutoff: `0` is falsy in the `if posted_after_hours:`
guard, so the result equals the call with `posted_after_hours = None`, for
every store and every combination of the other filters. -/
theorem posted_after_hours_zero_is_no_filter
    (st : Store) (ftsMatch : String → FtsRow → Bool) (cutoffIso : Int → String)
    (company location keywords : Option String)
    (remote_only visa_sponsorship : Bool) (application_status : Option String)
    (limit offset : Int) (sort_by : String) :
    query_jobs st ftsMatch cutoffIso company location keywords (some 0)
        remote_only visa_sponsorship application_status limit offset sort_by =
      query_jobs st ftsMatch cutoffIso company location keywords none
        remote_only visa_sponsorship application_status limit offset sort_by ∧
    count_jobs st ftsMatch cutoffIso company location keywords (some 0)
        remote_only visa_sponsorship application_status =
      count_jobs st ftsMatch cutoffIso company location keywords none
        remote_only visa_sponsorship application_status := by
  have hpred :
      jobWherePred st ftsMatch cutoffIso company location keywords (some 0)
        remote_only visa_sponsorship application_status =
      jobWherePred st ftsMatch cutoffIso company location keywords none
        remote_only visa_sponsorship application_status := by
    funext r
    simp [jobWherePred, truthyOptInt]
  exact ⟨by rw [query_jobs, query_jobs, hpred], by rw [count_jobs, count_jobs, hpred]⟩

/-- C1 (divergence witness).  Upserting the same record twice leaves one
jobs row but two `jobs_fts` rows referencing its job id: the REPLACE step
of `INSERT OR REPLACE` fires no delete trigger (SQLite only fires them
under `recursive_triggers`, which the source never enables), so the insert
trigger accumulates index rows.  The claim, the spec invariant, and the
repository's own tests (which call the absent `rebuild_fts` and describe
the external-content delete protocol) require exactly one row. -/
theorem fts_duplicated_after_double_upsert :
    ((upsert_jobs (upsert_jobs emptyStore "T1" [j42]).1 "T2" [j42]).1.jobs.filter
        (fun r => dictGet r "job_id" = SqlValue.text "42")).length = 1 ∧
    ((upsert_jobs (upsert_jobs emptyStore "T1" [j42]).1 "T2" [j42]).1.jobs_fts.filter
        (fun fr => fr.job_id = SqlValue.text "42")).length = 2 := by
  decide

/-- C3 (divergence witness).  Observing the same job twice with identical
tracked fields still writes a `salary` change row in the second cycle:
the jobs table has no `salary` column, so `old_job.get("salary", "")` is
always `""` while the scraped salary text is `"$100K - $150K"`.  The
number_of_applicants and raw_description fields, which are stored,
correctly produce no rows. -/
theorem salary_change_row_despite_unchanged_salary :
    (scrape_cycle_persist emptyStore "T1" 1 [detail123]).1.job_changes = [] ∧
    (scrape_cycle_persist (scrape_cycle_persist emptyStore "T1" 1 [detail123]).1
        "T2" 1 [detail123b]).1.job_changes =
      [⟨"123", "T2", "salary", "", "$100K - $150K"⟩] := by
  decide

/-- C8 (counterexample).  `upsert_profile` accepts an input whose
refresh interval is 60 seconds and stores it unchanged: no minimum is
enforced by the store (the 3600 floor lives only in the tool layer of
main.py). -/
theorem upsert_profile_stores_low_refresh_interval :
    ((upsert_profile emptyStore "T0" profile60).1.profiles.map
        (fun r => r.refresh_interval)) = [60] ∧
    ¬ ((3600 : Int) ≤ 60) := by
  decide

/-- C8 (amended).  `upsert_profile` stores the given refresh interval
unchanged, defaulting to 3600 when the key is absent; consequently the
row it affects satisfies `refresh_interval ≥ 3600` exactly when the input
is absent or itself at least 3600; and seeding stores 7200. -/
theorem upsert_profile_refresh_interval (st : Store) (now : String)
    (p : ProfileInput) :
    (∃ r ∈ (upsert_profile st now p).1.profiles,
        r.id = (upsert_profile st now p).2 ∧
        r.refresh_interval = p.refresh_interval.getD 3600) ∧
    ((p.refresh_interval = none ∨ ∃ v, p.refresh_interval = some v ∧ 3600 ≤ v) →
      ∃ r ∈ (upsert_profile st now p).1.profiles,
        r.id = (upsert_profile st now p).2 ∧ 3600 ≤ r.refresh_interval) ∧
    ((seed_default_profile emptyStore now).1.profiles.map
        (fun r => r.refresh_interval)) = [7200] := by
  have hmain : ∃ r ∈ (upsert_profile st now p).1.profiles,
      r.id = (upsert_profile st now p).2 ∧
      r.refresh_interval = p.refresh_interval.getD 3600 := by
    rw [upsert_profile]
    cases hf : st.profiles.find? (fun r => r.name = p.name) with
    | some row =>
        refine ⟨{ row with
          location := p.location, keywords := p.keywords,
          distance := p.distance.getD 25,
          time_filter := p.time_filter.getD "r7200",
          refresh_interval := p.refresh_interval.getD 3600,
          enabled := p.enabled.getD 1,
          updated_at := now }, ?_, rfl, rfl⟩
        simp only [List.mem_map]
        exact ⟨row, List.mem_of_find?_eq_some hf, by simp⟩
    | none =>
        exact ⟨⟨nextProfileId st.profiles, p.name, p.location, p.keywords,
          p.distance.getD 25, p.time_filter.getD "r7200",
          p.refresh_interval.getD 3600, p.enabled.getD 1, none, now, now⟩,
          by simp, rfl, rfl⟩
  refine ⟨hmain, ?_, rfl⟩
  intro h
  obtain ⟨r, hr, hid, hval⟩ := hmain
  refine ⟨r, hr, hid, ?_⟩
  rcases h with h | ⟨v, hv, hge⟩
  · rw [hval, h]; exact le_rfl
  · rw [hval, hv]; exact hge

/-- Witness for `upsert_profile_refresh_interval`: at the concrete input
`profileDefault` (no refresh interval given), the affected row stores at
least 3600. -/
theorem upsert_profile_refresh_interval_witness :
    (profileDefault.refresh_interval = none ∨
      ∃ v, profileDefault.refresh_interval = some v ∧ 3600 ≤ v) ∧
    ∃ r ∈ (upsert_profile emptyStore "T0" profileDefault).1.profiles,
      r.id = (upsert_profile emptyStore "T0" profileDefault).2 ∧
      3600 ≤ r.refresh_interval :=
  ⟨Or.inl rfl,
   (upsert_profile_refresh_interval emptyStore "T0" profileDefault).2.1 (Or.inl rfl)⟩

/-- Dictionary lookup distributes over append. -/
theorem dictFind_append (d1 d2 : PyDict) (k : String) :
    dictFind (d1 ++ d2) k = (dictFind d1 k).or (dictFind d2 k) := by
  rw [dictFind, dictFind, dictFind, List.find?_append]
  cases hf : List.find? (fun p => p.1 = k) d1 <;> simp [hf]

/-- A singleton dictionary has no binding for a different key. -/
theorem dictFind_singleton_ne (k k2 : String) (v : SqlValue) (h : k2 ≠ k) :
    dictFind [(k2, v)] k = none := by
  simp [dictFind, List.find?, h]

/-- An absent key means the underlying lookup is `none`. -/
theorem dictFind_eq_none_of_hasKey_false (d : PyDict) (k : String)
    (h : hasKey d k = false) : dictFind d k = none := by
  rw [hasKey] at h
  rw [dictFind]
  cases hf : d.find? (fun p => p.1 = k) with
  | none => rfl
  | some p => rw [hf] at h; simp at h

/-- Appending a binding for a different key does not change a lookup. -/
theorem dictGet_append_single_ne (d : PyDict) (k k2 : String) (v : SqlValue)
    (hne : k2 ≠ k) : dictGet (d ++ [(k2, v)]) k = dictGet d k := by
  rw [dictGet, dictGet, dictFind_append, dictFind_singleton_ne k k2 v hne]
  cases hf : dictFind d k <;> simp [hf]

/-- Appending a binding for an absent key makes the lookup return it. -/
theorem dictGet_append_single_eq (d : PyDict) (k : String) (v : SqlValue)
    (h : hasKey d k = false) : dictGet (d ++ [(k, v)]) k = v := by
  rw [dictGet, dictFind_append, dictFind_eq_none_of_hasKey_false d k h]
  simp [dictFind, List.find?]

/-- Lemma: `fillNorm` leaves other keys untouched. -/
theorem dictGet_fillNorm_other (j : PyDict) (k : String)
    (h : k ≠ "normalized_company_name") :
    dictGet (fillNorm j) k = dictGet j k := by
  rw [fillNorm]
  split
  · rfl
  · exact dictGet_append_single_ne j k _ _ h.symm

/-- Lemma: `fillLastSeen` leaves other keys untouched. -/
theorem dictGet_fillLastSeen_other (now : String) (j : PyDict) (k : String)
    (h : k ≠ "last_seen") :
    dictGet (fillLastSeen now j) k = dictGet j k := by
  rw [fillLastSeen]
  split
  · rfl
  · exact dictGet_append_single_ne j k _ _ h.symm

/-- Lemma: `prepareJob` leaves every key other than the two it may add
untouched. -/
theorem dictGet_prepareJob_other (now : String) (j : PyDict) (k : String)
    (h1 : k ≠ "normalized_company_name") (h2 : k ≠ "last_seen") :
    dictGet (prepareJob now j) k = dictGet j k := by
  rw [prepareJob, dictGet_fillLastSeen_other now _ k h2, dictGet_fillNorm_other j k h1]

/-- Lemma: `prepareJob` fills `normalized_company_name` from the company when
the key is absent. -/
theorem dictGet_prepareJob_norm_absent (now : String) (j : PyDict)
    (h : hasKey j "normalized_company_name" = false) :
    dictGet (prepareJob now j) "normalized_company_name" =
      SqlValue.text (normalize_company_name (asText (dictGet j "company"))) := by
  rw [prepareJob, dictGet_fillLastSeen_other now _ _ (by decide), fillNorm, h]
  simp only [Bool.false_eq_true, if_false]
  exact dictGet_append_single_eq j _ _ h

/-- Lemma: `prepareJob` keeps an already-present `normalized_company_name`. -/
theorem dictGet_prepareJob_norm_present (now : String) (j : PyDict)
    (h : hasKey j "normalized_company_name" = true) :
    dictGet (prepareJob now j) "normalized_company_name" =
      dictGet j "normalized_company_name" := by
  rw [prepareJob, dictGet_fillLastSeen_other now _ _ (by decide), fillNorm, h]
  simp

/-- The bound row keeps the dictionary's `normalized_company_name`. -/
theorem dictGet_mkRow_norm (j : PyDict) :
    dictGet (mkRow j) "normalized_company_name" = dictGet j "normalized_company_name" := rfl

/-- The bound row keeps the dictionary's `company`. -/
theorem dictGet_mkRow_company (j : PyDict) :
    dictGet (mkRow j) "company" = dictGet j "company" := rfl

/-- The bound row keeps the dictionary's `job_id`. -/
theorem dictGet_mkRow_jobid (j : PyDict) :
    dictGet (mkRow j) "job_id" = dictGet j "job_id" := rfl

/-- Rows reached by the upsert fold are old rows or bound new rows. -/
theorem mem_jobs_foldl_insert (rows : List PyDict) (st : Store) (r : PyDict)
    (h : r ∈ (rows.foldl (fun s j => insertOrReplaceJob s (mkRow j)) st).jobs) :
    r ∈ st.jobs ∨ ∃ j ∈ rows, r = mkRow j := by
  induction rows generalizing st with
  | nil => exact Or.inl h
  | cons j rows ih =>
      rcases ih _ h with hmem | ⟨j2, hj2, rfl⟩
      · simp only [insertOrReplaceJob] at hmem
        simp only [List.mem_append, List.mem_filter, List.mem_singleton] at hmem
        rcases hmem with ⟨hmem, _⟩ | rfl
        · exact Or.inl hmem
        · exact Or.inr ⟨j, List.mem_cons_self _ _, rfl⟩
      · exact Or.inr ⟨j2, List.mem_cons_of_mem _ hj2, rfl⟩

/-- Rows of the store after `upsert_jobs` are old rows or prepared,
bound versions of the batch records. -/
theorem mem_jobs_upsert (st : Store) (now : String) (batch : List PyDict)
    (r : PyDict) (h : r ∈ (upsert_jobs st now batch).1.jobs) :
    r ∈ st.jobs ∨ ∃ j ∈ batch, r = mkRow (prepareJob now j) := by
  rw [upsert_jobs] at h
  split at h
  · exact Or.inl h
  · rcases mem_jobs_foldl_insert _ _ _ h with hmem | ⟨j, hj, rfl⟩
    · exact Or.inl hmem
    · rcases List.mem_map.mp hj with ⟨j0, hj0, rfl⟩
      exact Or.inr ⟨j0, hj0, rfl⟩

/-- Lemma: `detect_job_changes` only appends to the change log. -/
theorem detect_job_changes_jobs (st : Store) (now : String) (old_job new_job : PyDict) :
    (detect_job_changes st now old_job new_job).jobs = st.jobs := by
  rw [detect_job_changes]
  generalize fieldsToTrack = l
  induction l generalizing st with
  | nil => rfl
  | cons f rest ih =>
      simp only [List.foldl_cons]
      split
      · rw [ih]; rfl
      · rw [ih]

/-- The detail-processing loop never touches the jobs table. -/
theorem processDetails_jobs (st : Store) (now : String) (pid : Int)
    (details : List JobDetail) :
    (processDetails st now pid details).store.jobs = st.jobs := by
  induction details generalizing st with
  | nil => rfl
  | cons d rest ih =>
      rw [processDetails]
      split
      · exact ih st
      · split
        · rw [ih, detect_job_changes_jobs]
        · exact ih st

/-- The batch assembled by the detail-processing loop is exactly the
kept details with `profile_id` attached, in order. -/
theorem processDetails_batch (st : Store) (now : String) (pid : Int)
    (details : List JobDetail) :
    (processDetails st now pid details).batch =
      (details.filter keepDetail).map
        (fun d => asdict d ++ [("profile_id", SqlValue.int pid)]) := by
  induction details generalizing st with
  | nil => rfl
  | cons d rest ih =>
      rw [processDetails]
      split
      · next hcond =>
          rw [List.filter_cons_of_neg (by simp [keepDetail, hcond])]
          exact ih st
      · next hcond =>
          rw [List.filter_cons_of_pos (by simp [keepDetail]; simpa using hcond)]
          simp only [List.map_cons]
          split
          · congr 1
            apply ih
          · congr 1
            apply ih

/-- C6 (counterexample).  The suffix set the claim lists does not match
the code: for company `"Acme Inc."` the store's auto-fill persists
`"acme"` (the code also strips the ` inc.` variant), while the claim's
normalize — lowercase, strip exactly the eight listed suffixes, trim —
yields `"acme inc."`; so the persisted record does not satisfy the
claim's equation `normalized_company_name = normalize(company)`. -/
theorem normalize_suffixes_differ_from_claim :
    ((upsert_jobs emptyStore "T1" [jAcme]).1.jobs.map
        (fun r => dictGet r "normalized_company_name")) = [SqlValue.text "acme"] ∧
    normalizeCompanyNameSpec "Acme Inc." = "acme inc." ∧
    ("acme" : String) ≠ "acme inc." := by
  decide

/-- C6 (amended).  With `normalize` as the code defines it (lowercase,
strip the first matching suffix among the sixteen variants of
`db.normalize_company_name`, trim), `upsert_jobs` auto-fills
`normalized_company_name` with `normalize(company)` whenever the field is
absent from the input record, and a scrape cycle preserves the invariant
`normalized_company_name = normalize(company)` across the whole jobs
table, given that each fetched detail either carries the
parser-established equation (scraper.py line 292) or is a sentinel
fallback (scraper.py lines 499-528), which the cycle skips. -/
theorem normalized_company_name_invariant :
    (∀ (now : String) (j : PyDict), hasKey j "normalized_company_name" = false →
      dictGet (mkRow (prepareJob now j)) "normalized_company_name" =
        SqlValue.text (normalize_company_name (asText (dictGet j "company")))) ∧
    (∀ (st : Store) (now : String) (pid : Int) (details : List JobDetail),
      (∀ r ∈ st.jobs, rowNormInv r) →
      (∀ d ∈ details, d.normalized_company_name = normalize_company_name d.company ∨
        (d.title = "N/A" ∧ d.company = "N/A")) →
      ∀ r ∈ (scrape_cycle_persist st now pid details).1.jobs, rowNormInv r) := by
  constructor
  · intro now j h
    rw [dictGet_mkRow_norm, dictGet_prepareJob_norm_absent now j h]
  · intro st now pid details hinv hdet r hr
    rw [scrape_cycle_persist] at hr
    rcases mem_jobs_upsert _ _ _ _ hr with hmem | ⟨j, hj, rfl⟩
    · rw [processDetails_jobs] at hmem
      exact hinv r hmem
    · rw [processDetails_batch] at hj
      rcases List.mem_map.mp hj with ⟨d, hd, rfl⟩
      rcases List.mem_filter.mp hd with ⟨hdmem, hkeep⟩
      have hcompany : d.company ≠ "N/A" := by
        rw [keepDetail] at hkeep
        simp only [Bool.not_eq_eq_eq_not, Bool.not_false, Bool.or_eq_false_iff] at hkeep
        intro hc
        simp [hc] at hkeep
      have hnorm : d.normalized_company_name = normalize_company_name d.company := by
        rcases hdet d hdmem with h | ⟨_, hc⟩
        · exact h
        · exact absurd hc hcompany
      have hpk : hasKey (asdict d ++ [("profile_id", SqlValue.int pid)])
          "normalized_company_name" = true := rfl
      rw [rowNormInv, dictGet_mkRow_norm, dictGet_mkRow_company,
        dictGet_prepareJob_norm_present now _ hpk,
        dictGet_prepareJob_other now _ "company" (by decide) (by decide)]
      have e1 : dictGet (asdict d ++ [("profile_id", SqlValue.int pid)])
          "normalized_company_name" = SqlValue.text d.normalized_company_name := rfl
      have e2 : dictGet (asdict d ++ [("profile_id", SqlValue.int pid)])
          "company" = SqlValue.text d.company := rfl
      rw [e1, e2, hnorm]
      rfl

/-- Witness for `normalized_company_name_invariant`: the auto-fill branch
applied to the concrete record `j42`, whose input lacks the field. -/
theorem normalized_company_name_invariant_witness :
    hasKey j42 "normalized_company_name" = false ∧
    dictGet (mkRow (prepareJob "T1" j42)) "normalized_company_name" =
      SqlValue.text (normalize_company_name (asText (dictGet j42 "company"))) :=
  ⟨by decide, normalized_company_name_invariant.1 "T1" j42 (by decide)⟩

/-- Filtering by a weaker predicate does not change `find?`. -/
theorem find?_filter_imp {α : Type} (l : List α) (p q : α → Bool)
    (h : ∀ r, p r = true → q r = true) :
    (l.filter q).find? p = l.find? p := by
  induction l with
  | nil => rfl
  | cons a l ih =>
      by_cases hq : q a = true
      · rw [List.filter_cons_of_pos hq, List.find?_cons, List.find?_cons]
        cases hp : p a <;> simp [ih]
      · rw [List.filter_cons_of_neg (by simp [hq]), List.find?_cons]
        have hp : p a = false := by
          cases hpa : p a
          · rfl
          · exact absurd (h a hpa) (by simp [hq])
        simp [hp, ih]

/-- Replacing a row with a different job id does not change `get_job`. -/
theorem get_job_insert_ne (st : Store) (row : PyDict) (jid : String)
    (h : dictGet row "job_id" ≠ SqlValue.text jid) :
    get_job (insertOrReplaceJob st row) jid = get_job st jid := by
  rw [get_job, get_job]
  simp only [insertOrReplaceJob]
  rw [List.find?_append]
  have h1 : (st.jobs.filter (fun r => dictGet r "job_id" ≠ dictGet row "job_id")).find?
      (fun r => dictGet r "job_id" = SqlValue.text jid) =
      st.jobs.find? (fun r => dictGet r "job_id" = SqlValue.text jid) := by
    apply find?_filter_imp
    intro r hr
    simp only [decide_eq_true_eq] at hr
    exact decide_eq_true (by rw [hr]; exact fun he => h he.symm)
  have h2 : List.find? (fun r => dictGet r "job_id" = SqlValue.text jid) [row] = none := by
    simp [List.find?, h]
  rw [h1, h2, Option.or_none]

/-- The upsert fold leaves foreign job ids untouched. -/
theorem get_job_foldl_insert_ne (rows : List PyDict) (st : Store) (jid : String)
    (h : ∀ j ∈ rows, dictGet (mkRow j) "job_id" ≠ SqlValue.text jid) :
    get_job (rows.foldl (fun s j => insertOrReplaceJob s (mkRow j)) st) jid =
      get_job st jid := by
  induction rows generalizing st with
  | nil => rfl
  | cons j rows ih =>
      simp only [List.foldl_cons]
      rw [ih _ (fun x hx => h x (List.mem_cons_of_mem _ hx)),
        get_job_insert_ne st _ jid (h j (List.mem_cons_self _ _))]

/-- Lemma: `upsert_jobs` leaves rows whose job id is absent from the batch
untouched. -/
theorem get_job_upsert_frame (st : Store) (now : String) (batch : List PyDict)
    (jid : String) (h : ∀ j ∈ batch, dictGet j "job_id" ≠ SqlValue.text jid) :
    get_job (upsert_jobs st now batch).1 jid = get_job st jid := by
  rw [upsert_jobs]
  split
  · rfl
  · apply get_job_foldl_insert_ne
    intro j hj
    rcases List.mem_map.mp hj with ⟨j0, hj0, rfl⟩
    rw [dictGet_mkRow_jobid, dictGet_prepareJob_other now _ _ (by decide) (by decide)]
    exact h j0 hj0

/-- C5.  A scrape cycle's upsert batch is exactly the fetched details
whose title and company are not the sentinel, each with `profile_id` set
to the profile's id before upsert; and for a sentinel-valued detail whose
job id no kept detail shares, the cycle leaves the store row for that id
unchanged. -/
theorem na_details_excluded_from_upsert :
    (∀ (st : Store) (now : String) (pid : Int) (details : List JobDetail),
      (processDetails st now pid details).batch =
        (details.filter keepDetail).map
          (fun d => asdict d ++ [("profile_id", SqlValue.int pid)])) ∧
    (∀ (st : Store) (now : String) (pid : Int) (details : List JobDetail)
        (j : PyDict), j ∈ (processDetails st now pid details).batch →
      dictGet j "profile_id" = SqlValue.int pid) ∧
    (∀ (st : Store) (now : String) (pid : Int) (details : List JobDetail)
        (d : JobDetail), d ∈ details →
      (d.title = "N/A" ∨ d.company = "N/A") →
      (∀ e ∈ details, keepDetail e = true → e.job_id ≠ d.job_id) →
      get_job (scrape_cycle_persist st now pid details).1 d.job_id =
        get_job st d.job_id) := by
  refine ⟨fun st now pid details => processDetails_batch st now pid details, ?_, ?_⟩
  · intro st now pid details j hj
    rw [processDetails_batch] at hj
    rcases List.mem_map.mp hj with ⟨d, _, rfl⟩
    rfl
  · intro st now pid details d _ _ hkept
    rw [scrape_cycle_persist]
    rw [get_job_upsert_frame]
    · rw [get_job, get_job, processDetails_jobs]
    · intro j hj
      rw [processDetails_batch] at hj
      rcases List.mem_map.mp hj with ⟨e, he, rfl⟩
      rcases List.mem_filter.mp he with ⟨hemem, hekeep⟩
      have hne := hkept e hemem hekeep
      have ej : dictGet (asdict e ++ [("profile_id", SqlValue.int pid)]) "job_id" =
          SqlValue.text e.job_id := rfl
      rw [ej]
      simp [hne]

/-- Witness for `na_details_excluded_from_upsert`: the concrete store
`store9` holds a row for job "9"; a cycle fetching the sentinel detail
for "9" together with a kept detail for "123" leaves the row for "9"
unchanged. -/
theorem na_details_excluded_from_upsert_witness :
    (detailNA ∈ [detailNA, detail123b] ∧
      (detailNA.title = "N/A" ∨ detailNA.company = "N/A") ∧
      (∀ e ∈ [detailNA, detail123b], keepDetail e = true → e.job_id ≠ detailNA.job_id)) ∧
    get_job (scrape_cycle_persist store9 "T2" 1 [detailNA, detail123b]).1 detailNA.job_id =
      get_job store9 detailNA.job_id :=
  ⟨⟨by decide, by decide, by decide⟩,
   na_details_excluded_from_upsert.2.2 store9 "T2" 1 [detailNA, detail123b] detailNA
     (by decide) (by decide) (by decide)⟩

/-- Spawn adds exactly the spawned id to the tracked set. -/
theorem mem_workerIds_spawn (sch : Scheduler) (pid q : Int) :
    q ∈ workerIds (spawn_worker sch pid) ↔ q ∈ workerIds sch ∨ q = pid := by
  rw [spawn_worker]
  split
  · next h =>
      rcases List.find?_isSome.mp h with ⟨t, ht, hp⟩
      simp only [decide_eq_true_eq] at hp
      constructor
      · exact Or.inl
      · rintro (hq | rfl)
        · exact hq
        · rw [workerIds]
          exact List.mem_map.mpr ⟨t, ht, hp⟩
  · simp [workerIds]

/-- Spawn keeps the tracked ids duplicate-free. -/
theorem nodup_workerIds_spawn (sch : Scheduler) (pid : Int)
    (h : (workerIds sch).Nodup) : (workerIds (spawn_worker sch pid)).Nodup := by
  rw [spawn_worker]
  split
  · exact h
  · next hf =>
      have hnot : pid ∉ workerIds sch := by
        intro hmem
        rcases List.mem_map.mp hmem with ⟨t, ht, hp⟩
        exact hf (List.find?_isSome.mpr ⟨t, ht, decide_eq_true hp⟩)
      have hids : workerIds ⟨sch.worker_tasks ++ [(pid, sch.next_task)], sch.next_task + 1⟩ =
          workerIds sch ++ [pid] := by simp [workerIds]
      rw [hids]
      refine List.Nodup.append h (List.nodup_singleton _) ?_
      intro a ha hb
      rw [List.mem_singleton] at hb
      subst hb
      exact hnot ha

/-- Kill removes exactly the killed id from the tracked set. -/
theorem mem_workerIds_kill (sch : Scheduler) (pid q : Int) :
    q ∈ workerIds (kill_worker sch pid) ↔ q ∈ workerIds sch ∧ q ≠ pid := by
  rw [kill_worker, workerIds, workerIds]
  constructor
  · intro h
    rcases List.mem_map.mp h with ⟨t, ht, rfl⟩
    rcases List.mem_filter.mp ht with ⟨ht1, ht2⟩
    simp only [decide_eq_true_eq] at ht2
    exact ⟨List.mem_map.mpr ⟨t, ht1, rfl⟩, ht2⟩
  · rintro ⟨h, hne⟩
    rcases List.mem_map.mp h with ⟨t, ht, rfl⟩
    exact List.mem_map.mpr ⟨t, List.mem_filter.mpr ⟨ht, decide_eq_true hne⟩, rfl⟩

/-- Kill keeps the tracked ids duplicate-free. -/
theorem nodup_workerIds_kill (sch : Scheduler) (pid : Int)
    (h : (workerIds sch).Nodup) : (workerIds (kill_worker sch pid)).Nodup := by
  have hsub : ((sch.worker_tasks.filter (fun t => t.1 ≠ pid)).map (fun t => t.1)).Sublist
      (sch.worker_tasks.map (fun t => t.1)) := by
    apply List.Sublist.map
    exact List.filter_sublist _
  exact hsub.nodup h

/-- Membership after the spawn phase of a reload iteration. -/
theorem mem_fold_spawn_guarded (current : List ProfileRow) (running : List Int)
    (sch : Scheduler) (q : Int) :
    q ∈ workerIds (current.foldl (fun s p =>
        if running.contains p.id then s
        else if p.enabled ≠ 0 then spawn_worker s p.id else s) sch) ↔
      q ∈ workerIds sch ∨
        ∃ p ∈ current, p.id = q ∧ running.contains p.id = false ∧ p.enabled ≠ 0 := by
  induction current generalizing sch with
  | nil => simp
  | cons p rest ih =>
      simp only [List.foldl_cons]
      by_cases hr : running.contains p.id = true
      · rw [if_pos hr, ih]
        constructor
        · rintro (h | ⟨p2, h2, rfl, h3, h4⟩)
          · exact Or.inl h
          · exact Or.inr ⟨p2, List.mem_cons_of_mem _ h2, rfl, h3, h4⟩
        · rintro (h | ⟨p2, h2, rfl, h3, h4⟩)
          · exact Or.inl h
          · rcases List.mem_cons.mp h2 with rfl | h2
            · rw [hr] at h3; cases h3
            · exact Or.inr ⟨p2, h2, rfl, h3, h4⟩
      · rw [if_neg hr]
        rw [Bool.not_eq_true] at hr
        by_cases he : p.enabled ≠ 0
        · rw [if_pos he, ih]
          rw [mem_workerIds_spawn]
          constructor
          · rintro ((h | rfl) | ⟨p2, h2, rfl, h3, h4⟩)
            · exact Or.inl h
            · exact Or.inr ⟨p, List.mem_cons_self _ _, rfl, hr, he⟩
            · exact Or.inr ⟨p2, List.mem_cons_of_mem _ h2, rfl, h3, h4⟩
          · rintro (h | ⟨p2, h2, rfl, h3, h4⟩)
            · exact Or.inl (Or.inl h)
            · rcases List.mem_cons.mp h2 with rfl | h2
              · exact Or.inl (Or.inr rfl)
              · exact Or.inr ⟨p2, h2, rfl, h3, h4⟩
        · rw [if_neg he, ih]
          constructor
          · rintro (h | ⟨p2, h2, rfl, h3, h4⟩)
            · exact Or.inl h
            · exact Or.inr ⟨p2, List.mem_cons_of_mem _ h2, rfl, h3, h4⟩
          · rintro (h | ⟨p2, h2, rfl, h3, h4⟩)
            · exact Or.inl h
            · rcases List.mem_cons.mp h2 with rfl | h2
              · exact absurd h4 he
              · exact Or.inr ⟨p2, h2, rfl, h3, h4⟩

/-- The spawn phase keeps the tracked ids duplicate-free. -/
theorem nodup_fold_spawn_guarded (current : List ProfileRow) (running : List Int)
    (sch : Scheduler) (h : (workerIds sch).Nodup) :
    (workerIds (current.foldl (fun s p =>
        if running.contains p.id then s
        else if p.enabled ≠ 0 then spawn_worker s p.id else s) sch)).Nodup := by
  induction current generalizing sch with
  | nil => exact h
  | cons p rest ih =>
      simp only [List.foldl_cons]
      split
      · exact ih sch h
      · split
        · exact ih _ (nodup_workerIds_spawn sch p.id h)
        · exact ih sch h

/-- Membership after the kill phase of a reload iteration. -/
theorem mem_fold_kill (ids : List Int) (currentIds : List Int) (sch : Scheduler)
    (q : Int) :
    q ∈ workerIds (ids.foldl (fun s pid =>
        if currentIds.contains pid then s else kill_worker s pid) sch) ↔
      q ∈ workerIds sch ∧ (q ∉ ids ∨ currentIds.contains q = true) := by
  induction ids generalizing sch with
  | nil => simp
  | cons pid ids ih =>
      simp only [List.foldl_cons]
      by_cases hc : currentIds.contains pid = true
      · rw [if_pos hc, ih]
        constructor
        · rintro ⟨h1, h2 | h2⟩
          · by_cases hq : q = pid
            · exact ⟨h1, Or.inr (hq ▸ hc)⟩
            · exact ⟨h1, Or.inl (by simp [hq, h2])⟩
          · exact ⟨h1, Or.inr h2⟩
        · rintro ⟨h1, h2 | h2⟩
          · exact ⟨h1, Or.inl (fun hm => h2 (List.mem_cons_of_mem _ hm))⟩
          · exact ⟨h1, Or.inr h2⟩
      · rw [if_neg hc, ih, mem_workerIds_kill]
        constructor
        · rintro ⟨⟨h1, hne⟩, h2 | h2⟩
          · exact ⟨h1, Or.inl (by simp [hne, h2])⟩
          · exact ⟨h1, Or.inr h2⟩
        · rintro ⟨h1, h2 | h2⟩
          · exact ⟨⟨h1, fun he => h2 (he ▸ List.mem_cons_self _ _)⟩,
              Or.inl (fun hm => h2 (List.mem_cons_of_mem _ hm))⟩
          · refine ⟨⟨h1, ?_⟩, Or.inr h2⟩
            rintro rfl
            exact hc h2
      
/-- The kill phase keeps the tracked ids duplicate-free. -/
theorem nodup_fold_kill (ids currentIds : List Int) (sch : Scheduler)
    (h : (workerIds sch).Nodup) :
    (workerIds (ids.foldl (fun s pid =>
        if currentIds.contains pid then s else kill_worker s pid) sch)).Nodup := by
  induction ids generalizing sch with
  | nil => exact h
  | cons pid ids ih =>
      simp only [List.foldl_cons]
      split
      · exact ih sch h
      · exact ih _ (nodup_workerIds_kill sch pid h)

/-- The disabled-kill phase is a no-op on a current set whose rows are
all enabled (which `list_profiles` guarantees). -/
theorem fold_disabled_kill_noop (current : List ProfileRow) (running : List Int)
    (sch : Scheduler) (h : ∀ p ∈ current, p.enabled = 1) :
    current.foldl (fun s p =>
        if running.contains p.id && decide (p.enabled = 0) then kill_worker s p.id
        else s) sch = sch := by
  induction current generalizing sch with
  | nil => rfl
  | cons p rest ih =>
      simp only [List.foldl_cons]
      rw [if_neg (by simp [h p (List.mem_cons_self _ _)])]
      exact ih _ (fun x hx => h x (List.mem_cons_of_mem _ hx))

/-- Membership after the unguarded spawn fold used by `start`. -/
theorem mem_fold_spawn_plain (rows : List ProfileRow) (sch : Scheduler) (q : Int) :
    q ∈ workerIds (rows.foldl (fun s p =>
        if p.enabled ≠ 0 then spawn_worker s p.id else s) sch) ↔
      q ∈ workerIds sch ∨ ∃ p ∈ rows, p.id = q ∧ p.enabled ≠ 0 := by
  induction rows generalizing sch with
  | nil => simp
  | cons p rest ih =>
      simp only [List.foldl_cons]
      by_cases he : p.enabled ≠ 0
      · rw [if_pos he, ih, mem_workerIds_spawn]
        constructor
        · rintro ((h | rfl) | ⟨p2, h2, rfl, h4⟩)
          · exact Or.inl h
          · exact Or.inr ⟨p, List.mem_cons_self _ _, rfl, he⟩
          · exact Or.inr ⟨p2, List.mem_cons_of_mem _ h2, rfl, h4⟩
        · rintro (h | ⟨p2, h2, rfl, h4⟩)
          · exact Or.inl (Or.inl h)
          · rcases List.mem_cons.mp h2 with rfl | h2
            · exact Or.inl (Or.inr rfl)
            · exact Or.inr ⟨p2, h2, rfl, h4⟩
      · rw [if_neg he, ih]
        constructor
        · rintro (h | ⟨p2, h2, rfl, h4⟩)
          · exact Or.inl h
          · exact Or.inr ⟨p2, List.mem_cons_of_mem _ h2, rfl, h4⟩
        · rintro (h | ⟨p2, h2, rfl, h4⟩)
          · exact Or.inl h
          · rcases List.mem_cons.mp h2 with rfl | h2
            · exact absurd h4 he
            · exact Or.inr ⟨p2, h2, rfl, h4⟩

/-- The unguarded spawn fold keeps the tracked ids duplicate-free. -/
theorem nodup_fold_spawn_plain (rows : List ProfileRow) (sch : Scheduler)
    (h : (workerIds sch).Nodup) :
    (workerIds (rows.foldl (fun s p =>
        if p.enabled ≠ 0 then spawn_worker s p.id else s) sch)).Nodup := by
  induction rows generalizing sch with
  | nil => exact h
  | cons p rest ih =>
      simp only [List.foldl_cons]
      split
      · exact ih _ (nodup_workerIds_spawn sch p.id h)
      · exact ih sch h

/-- An id is tracked after a reload iteration iff it belongs to an
enabled profile row. -/
theorem mem_workerIds_reload (st : Store) (sch : Scheduler) (q : Int) :
    q ∈ workerIds (reload_iteration st sch) ↔
      ∃ p ∈ st.profiles, p.id = q ∧ p.enabled = 1 := by
  have hc : ∀ (l : List Int) (a : Int), l.contains a = true ↔ a ∈ l :=
    fun l a => List.elem_iff
  have henab : ∀ p ∈ list_profiles st true, p.enabled = 1 := by
    intro p hp
    rw [list_profiles, if_pos rfl] at hp
    exact of_decide_eq_true (List.mem_filter.mp hp).2
  have hmemcur : ∀ p, p ∈ list_profiles st true ↔ (p ∈ st.profiles ∧ p.enabled = 1) := by
    intro p
    rw [list_profiles, if_pos rfl, List.mem_filter]
    constructor
    · rintro ⟨h1, h2⟩; exact ⟨h1, of_decide_eq_true h2⟩
    · rintro ⟨h1, h2⟩; exact ⟨h1, decide_eq_true h2⟩
  rw [reload_iteration]
  rw [fold_disabled_kill_noop _ _ _ henab, mem_fold_kill, mem_fold_spawn_guarded]
  have hrun : sch.worker_tasks.map (fun t => t.1) = workerIds sch := rfl
  rw [hrun]
  constructor
  · rintro ⟨h1, h2 | h2⟩
    · rcases h1 with h1 | ⟨p, hp, rfl, _, _⟩
      · exact absurd h1 h2
      · exact ⟨p, (hmemcur p).mp hp |>.1, rfl, henab p hp⟩
    · rcases List.mem_map.mp ((hc _ q).mp h2) with ⟨p, hp, rfl⟩
      exact ⟨p, (hmemcur p).mp hp |>.1, rfl, henab p hp⟩
  · rintro ⟨p, hp, rfl, hen⟩
    have hpc : p ∈ list_profiles st true := (hmemcur p).mpr ⟨hp, hen⟩
    have hqc : ((list_profiles st true).map (fun p => p.id)).contains p.id = true :=
      (hc _ _).mpr (List.mem_map.mpr ⟨p, hpc, rfl⟩)
    refine ⟨?_, Or.inr hqc⟩
    by_cases hr : (workerIds sch).contains p.id = true
    · exact Or.inl ((hc _ _).mp hr)
    · refine Or.inr ⟨p, hpc, rfl, ?_, by rw [hen]; decide⟩
      rwa [Bool.not_eq_true] at hr

/-- C7.  After any reload-loop iteration the scheduler's task map tracks
exactly one worker per enabled profile and none for disabled or deleted
profiles (the map stays duplicate-free, and an id is tracked iff an
enabled row carries it); the same holds right after `start` (which seeds
the default profile when the table is empty); and a spawn attempt for an
already-tracked id is a no-op preserving the existing task. -/
theorem scheduler_tracks_enabled_profiles :
    (∀ (st : Store) (sch : Scheduler), (workerIds sch).Nodup →
      (workerIds (reload_iteration st sch)).Nodup ∧
      ∀ q : Int, q ∈ workerIds (reload_iteration st sch) ↔
        ∃ p ∈ st.profiles, p.id = q ∧ p.enabled = 1) ∧
    (∀ (st : Store) (now : String),
      (workerIds (start_service st now ⟨[], 0⟩).2).Nodup ∧
      ∀ q : Int, q ∈ workerIds (start_service st now ⟨[], 0⟩).2 ↔
        ∃ p ∈ (start_service st now ⟨[], 0⟩).1.profiles, p.id = q ∧ p.enabled = 1) ∧
    (∀ (sch : Scheduler) (pid : Int) (t : Nat),
      (pid, t) ∈ sch.worker_tasks → spawn_worker sch pid = sch) := by
  refine ⟨?_, ?_, ?_⟩
  · intro st sch hN
    have henab : ∀ p ∈ list_profiles st true, p.enabled = 1 := by
      intro p hp
      rw [list_profiles, if_pos rfl] at hp
      exact of_decide_eq_true (List.mem_filter.mp hp).2
    constructor
    · rw [reload_iteration, fold_disabled_kill_noop _ _ _ henab]
      exact nodup_fold_kill _ _ _ (nodup_fold_spawn_guarded _ _ _ hN)
    · intro q
      exact mem_workerIds_reload st sch q
  · intro st now
    have hmemcur : ∀ (s : Store) (p : ProfileRow),
        p ∈ list_profiles s true ↔ (p ∈ s.profiles ∧ p.enabled = 1) := by
      intro s p
      rw [list_profiles, if_pos rfl, List.mem_filter]
      constructor
      · rintro ⟨h1, h2⟩; exact ⟨h1, of_decide_eq_true h2⟩
      · rintro ⟨h1, h2⟩; exact ⟨h1, decide_eq_true h2⟩
    rw [start_service]
    constructor
    · exact nodup_fold_spawn_plain _ _ (by simp [workerIds])
    · intro q
      rw [mem_fold_spawn_plain]
      constructor
      · rintro (h | ⟨p, hp, rfl, hen⟩)
        · simp [workerIds] at h
        · rcases (hmemcur _ p).mp hp with ⟨h1, h2⟩
          exact ⟨p, h1, rfl, h2⟩
      · rintro ⟨p, hp, rfl, hen⟩
        exact Or.inr ⟨p, (hmemcur _ p).mpr ⟨hp, hen⟩, rfl, by rw [hen]; decide⟩
  · intro sch pid t h
    rw [spawn_worker, if_pos (List.find?_isSome.mpr ⟨(pid, t), h, by simp⟩)]

/-- Witness for `scheduler_tracks_enabled_profiles`: the reload part at a
concrete store with one enabled and one disabled profile and a scheduler
tracking a stale worker. -/
theorem scheduler_tracks_enabled_profiles_witness :
    (workerIds schW).Nodup ∧
    ((workerIds (reload_iteration stW schW)).Nodup ∧
      ∀ q : Int, q ∈ workerIds (reload_iteration stW schW) ↔
        ∃ p ∈ stW.profiles, p.id = q ∧ p.enabled = 1) :=
  ⟨by decide, scheduler_tracks_enabled_profiles.1 stW schW (by decide)⟩

/-- Peel one element off an exponential-delay range. -/
theorem range_map_delay (base : ℚ) (att n : Nat) :
    (List.range (n + 1)).map (fun i => base * 2 ^ (att + i)) =
      base * 2 ^ att :: (List.range n).map (fun i => base * 2 ^ (att + 1 + i)) := by
  rw [List.range_succ_eq_map]
  simp only [List.map_cons, List.map_map, Nat.add_zero]
  congr 1
  apply List.map_congr_left
  intro i _
  simp only [Function.comp_apply]
  have hadd : att + Nat.succ i = att + 1 + i := by omega
  rw [hadd]

/-- A retriable outcome sleeps and continues, or raises on the last
attempt of the range. -/
theorem rwbGo_step_retriable (outcomes : Nat → FetchOutcome) (base : ℚ)
    (att rem : Nat) (h : retriableOutcome (outcomes att) = true) :
    rwbGo outcomes base att (rem + 1) =
      if rem ≠ 0 then
        ⟨(rwbGo outcomes base (att + 1) rem).attempts + 1,
         base * 2 ^ att :: (rwbGo outcomes base (att + 1) rem).delays,
         (rwbGo outcomes base (att + 1) rem).result⟩
      else ⟨1, [], errorFor (outcomes att)⟩ := by
  cases ho : outcomes att with
  | status c =>
      rw [ho] at h
      simp only [retriableOutcome] at h
      simp only [rwbGo, ho]
      by_cases h1 : retriableStatus c = true
      · rw [if_pos h1]
        rfl
      · have h2 : errorStatus c = true := by
          rcases Bool.or_eq_true_iff.mp h with hx | hx
          · exact absurd hx h1
          · exact hx
        rw [if_neg h1, if_pos h2]
        rfl
  | transportError =>
      simp only [rwbGo, ho]
      rfl

/-- A non-retriable, non-error status returns the response. -/
theorem rwbGo_step_success (outcomes : Nat → FetchOutcome) (base : ℚ)
    (att rem : Nat) (c : Nat) (ho : outcomes att = .status c)
    (h : retriableOutcome (.status c) = false) :
    rwbGo outcomes base att (rem + 1) = ⟨1, [], .success c⟩ := by
  simp only [retriableOutcome, Bool.or_eq_false_iff] at h
  simp only [rwbGo, ho]
  rw [if_neg (by simp [h.1]), if_neg (by simp [h.2])]

/-- The loop never makes more attempts than the remaining range. -/
theorem rwbGo_attempts_le (outcomes : Nat → FetchOutcome) (base : ℚ) :
    ∀ (rem att : Nat), (rwbGo outcomes base att rem).attempts ≤ rem := by
  intro rem
  induction rem with
  | zero => intro att; exact Nat.le_refl 0
  | succ rem ih =>
      intro att
      cases ho : outcomes att with
      | status c =>
          simp only [rwbGo, ho]
          by_cases h1 : retriableStatus c = true
          · rw [if_pos h1]
            by_cases h2 : rem ≠ 0
            · rw [if_pos h2]
              exact Nat.succ_le_succ (ih (att + 1))
            · rw [if_neg h2]
              exact Nat.succ_le_succ (Nat.zero_le _)
          · rw [if_neg h1]
            by_cases h3 : errorStatus c = true
            · rw [if_pos h3]
              by_cases h2 : rem ≠ 0
              · rw [if_pos h2]
                exact Nat.succ_le_succ (ih (att + 1))
              · rw [if_neg h2]
                exact Nat.succ_le_succ (Nat.zero_le _)
            · rw [if_neg h3]
              exact Nat.succ_le_succ (Nat.zero_le _)
      | transportError =>
          simp only [rwbGo, ho]
          by_cases h2 : rem ≠ 0
          · rw [if_pos h2]
            exact Nat.succ_le_succ (ih (att + 1))
          · rw [if_neg h2]
            exact Nat.succ_le_succ (Nat.zero_le _)

/-- On an all-retriable remaining range the loop uses every attempt,
sleeps the exponential delays, and ends with the typed error of the last
outcome. -/
theorem rwbGo_all_retriable (outcomes : Nat → FetchOutcome) (base : ℚ) :
    ∀ (rem att : Nat), 1 ≤ rem →
    (∀ i, att ≤ i → i < att + rem → retriableOutcome (outcomes i) = true) →
    rwbGo outcomes base att rem =
      ⟨rem, (List.range (rem - 1)).map (fun i => base * 2 ^ (att + i)),
        errorFor (outcomes (att + rem - 1))⟩ := by
  intro rem
  induction rem with
  | zero => intro att h; exact absurd h (by omega)
  | succ rem ih =>
      intro att _ hall
      rw [rwbGo_step_retriable outcomes base att rem (hall att le_rfl (by omega))]
      by_cases h2 : rem ≠ 0
      · rw [if_pos h2]
        rw [ih (att + 1) (by omega) (fun i hi1 hi2 => hall i (by omega) (by omega))]
        have hd : (List.range (rem + 1 - 1)).map (fun i => base * 2 ^ (att + i)) =
            base * 2 ^ att :: (List.range (rem - 1)).map (fun i => base * 2 ^ (att + 1 + i)) := by
          rw [show rem + 1 - 1 = (rem - 1) + 1 by omega, range_map_delay]
        have he : att + 1 + rem - 1 = att + (rem + 1) - 1 := by omega
        rw [hd, he]
      · rw [if_neg h2]
        have : rem = 0 := by omega
        subst this
        simp

/-- If the first `k` outcomes are retriable and attempt `k` is a plain
success within the range, the loop returns that response after `k`
backoff sleeps. -/
theorem rwbGo_first_success (outcomes : Nat → FetchOutcome) (base : ℚ) :
    ∀ (k rem att c : Nat), k < rem →
    (∀ i, att ≤ i → i < att + k → retriableOutcome (outcomes i) = true) →
    outcomes (att + k) = .status c → retriableOutcome (.status c) = false →
    rwbGo outcomes base att rem =
      ⟨k + 1, (List.range k).map (fun i => base * 2 ^ (att + i)), .success c⟩ := by
  intro k
  induction k with
  | zero =>
      intro rem att c hk _ ho hs
      obtain ⟨r, rfl⟩ : ∃ r, rem = r + 1 := ⟨rem - 1, by omega⟩
      rw [rwbGo_step_success outcomes base att r c (by simpa using ho) hs]
      simp
  | succ k ih =>
      intro rem att c hk hall ho hs
      obtain ⟨r, rfl⟩ : ∃ r, rem = r + 1 := ⟨rem - 1, by omega⟩
      rw [rwbGo_step_retriable outcomes base att r (hall att le_rfl (by omega))]
      rw [if_pos (by omega : r ≠ 0)]
      rw [ih r (att + 1) c (by omega) (fun i hi1 hi2 => hall i (by omega) (by omega))
        (by rw [← ho]; congr 1; omega) hs]
      rw [range_map_delay]

/-- C4.  `request_with_backoff` issues at most `max_retries` GET
attempts; on a response sequence of only 429/503 it issues exactly
`max_retries` attempts separated by the delays `base·2^0, base·2^1, …`
and raises the typed HTTP-status error of the last response; a first
successful (non-4xx/5xx) status at attempt `k` is returned after `k`
backoff sleeps; and any all-retriable sequence (429/503, other 4xx/5xx,
transport errors, mixed) exhausts the range with the same delays and
raises the typed error of its last outcome. -/
theorem request_with_backoff_correct :
    (∀ (outcomes : Nat → FetchOutcome) (mr : Nat) (base : ℚ),
      (request_with_backoff outcomes mr base).attempts ≤ mr) ∧
    (∀ (outcomes : Nat → FetchOutcome) (mr : Nat) (base : ℚ), 1 ≤ mr →
      (∀ i < mr, ∃ c, outcomes i = .status c ∧ retriableStatus c = true) →
      request_with_backoff outcomes mr base =
        ⟨mr, (List.range (mr - 1)).map (fun i => base * 2 ^ i),
          errorFor (outcomes (mr - 1))⟩) ∧
    (∀ (outcomes : Nat → FetchOutcome) (mr : Nat) (base : ℚ) (k c : Nat),
      k < mr → (∀ i < k, retriableOutcome (outcomes i) = true) →
      outcomes k = .status c → retriableOutcome (.status c) = false →
      request_with_backoff outcomes mr base =
        ⟨k + 1, (List.range k).map (fun i => base * 2 ^ i), .success c⟩) ∧
    (∀ (outcomes : Nat → FetchOutcome) (mr : Nat) (base : ℚ), 1 ≤ mr →
      (∀ i < mr, retriableOutcome (outcomes i) = true) →
      request_with_backoff outcomes mr base =
        ⟨mr, (List.range (mr - 1)).map (fun i => base * 2 ^ i),
          errorFor (outcomes (mr - 1))⟩) := by
  have hall : ∀ (outcomes : Nat → FetchOutcome) (mr : Nat) (base : ℚ), 1 ≤ mr →
      (∀ i < mr, retriableOutcome (outcomes i) = true) →
      request_with_backoff outcomes mr base =
        ⟨mr, (List.range (mr - 1)).map (fun i => base * 2 ^ i),
          errorFor (outcomes (mr - 1))⟩ := by
    intro outcomes mr base h1 h2
    rw [request_with_backoff,
      rwbGo_all_retriable outcomes base mr 0 h1 (fun i hi1 hi2 => h2 i (by omega))]
    simp
  refine ⟨?_, ?_, ?_, hall⟩
  · intro outcomes mr base
    exact rwbGo_attempts_le outcomes base mr 0
  · intro outcomes mr base h1 h2
    apply hall outcomes mr base h1
    intro i hi
    rcases h2 i hi with ⟨c, hc, hr⟩
    rw [hc]
    simp [retriableOutcome, hr]
  · intro outcomes mr base k c hk hbefore ho hs
    rw [request_with_backoff,
      rwbGo_first_success outcomes base k mr 0 c hk
        (fun i hi1 hi2 => hbefore i (by omega)) (by simpa using ho) hs]
    simp

/-- Witness for `request_with_backoff_correct`: the all-429 sequence with
`max_retries = 3` and `base_delay = 1` makes exactly 3 attempts with
delays `1·2^0, 1·2^1` and raises the status error 429. -/
theorem request_with_backoff_correct_witness :
    (1 ≤ 3 ∧ ∀ i < 3, ∃ c, outcomes429 i = .status c ∧ retriableStatus c = true) ∧
    request_with_backoff outcomes429 3 1 =
      ⟨3, (List.range 2).map (fun i => (1 : ℚ) * 2 ^ i), errorFor (outcomes429 2)⟩ :=
  ⟨⟨by omega, fun i _ => ⟨429, rfl, rfl⟩⟩,
   request_with_backoff_correct.2.1 outcomes429 3 1 (by omega)
     (fun i _ => ⟨429, rfl, rfl⟩)⟩

end LinkedinMcp
